import Mathlib

/-!
# EnvParser: a shallow embedding of `envparser.go`

Go strings are byte sequences; they are modelled as lists of natural numbers
(`GoString`), every element of a well-formed string being below 256.  The
library functions the program calls (`strings`, `regexp`, `strconv`,
`encoding/base64`, `encoding/json`) are modelled at the byte level next to the
functions of the program that call them.

A function that can fault at run time (a slice expression out of range)
returns an `Option`: `none` is the fault, `some r` the normal return.  A Go
result pair `(interface{}, error)` is a pair `Value × Option Err`.
-/

namespace EnvParser

/-! ## Byte strings -/

/-- Go `string`: a sequence of bytes. -/
abbrev GoString := List Nat

/-- Well-formed byte string: every element is a byte. -/
def IsBytes (s : GoString) : Prop := ∀ b ∈ s, b < 256

instance (s : GoString) : Decidable (IsBytes s) := by
  unfold IsBytes
  infer_instance

/-- UTF-8 encoding of one code point. -/
def utf8Encode (c : Nat) : List Nat :=
  if c < 0x80 then [c]
  else if c < 0x800 then [0xC0 + c / 64, 0x80 + c % 64]
  else if c < 0x10000 then [0xE0 + c / 4096, 0x80 + (c / 64) % 64, 0x80 + c % 64]
  else [0xF0 + c / 262144, 0x80 + (c / 4096) % 64, 0x80 + (c / 64) % 64, 0x80 + c % 64]

/-- The bytes of a string literal of the source (its UTF-8 encoding). -/
def bytes (s : String) : GoString := s.toList.flatMap fun c => utf8Encode c.toNat

/-! ## Package `strings` -/

/-- Go `strings.HasPrefix`. -/
def HasPrefix (s pre : GoString) : Bool := s.take pre.length == pre

/-- Go `strings.HasSuffix`. -/
def HasSuffix (s suf : GoString) : Bool :=
  decide (suf.length ≤ s.length) && s.drop (s.length - suf.length) == suf

/-- Go `strings.TrimPrefix`. -/
def TrimPrefix (s pre : GoString) : GoString :=
  if HasPrefix s pre then s.drop pre.length else s

/-- Go `strings.TrimSuffix`. -/
def TrimSuffix (s suf : GoString) : GoString :=
  if HasSuffix s suf then s.take (s.length - suf.length) else s

/-- Go `strings.Contains`, structurally: some suffix of `s` starts with `sub`. -/
def Contains : GoString → GoString → Bool
  | [], sub => sub == []
  | c :: r, sub => HasPrefix (c :: r) sub || Contains r sub

/-- Width in bytes of the white-space rune (`unicode.IsSpace`) that starts `s`,
    0 when `s` does not start with one.  The runes are U+0009..U+000D, U+0020,
    U+0085, U+00A0, U+1680, U+2000..U+200A, U+2028, U+2029, U+202F, U+205F and
    U+3000, each in its UTF-8 encoding. -/
def spaceWidth : GoString → Nat
  | [] => 0
  | a :: r =>
    if a = 9 ∨ a = 10 ∨ a = 11 ∨ a = 12 ∨ a = 13 ∨ a = 32 then 1
    else match r with
      | [] => 0
      | b :: r2 =>
        if a = 0xC2 ∧ (b = 0x85 ∨ b = 0xA0) then 2
        else match r2 with
          | [] => 0
          | c :: _ =>
            if a = 0xE1 ∧ b = 0x9A ∧ c = 0x80 then 3
            else if a = 0xE2 ∧ b = 0x80 ∧ ((0x80 ≤ c ∧ c ≤ 0x8A) ∨ c = 0xA8 ∨ c = 0xA9 ∨ c = 0xAF) then 3
            else if a = 0xE2 ∧ b = 0x81 ∧ c = 0x9F then 3
            else if a = 0xE3 ∧ b = 0x80 ∧ c = 0x80 then 3
            else 0

/-- Width in bytes of the white-space rune that ends the string whose reversal
    is `r` (the last byte first), 0 when it does not end with one. -/
def spaceWidthRev : GoString → Nat
  | [] => 0
  | c :: r =>
    if c = 9 ∨ c = 10 ∨ c = 11 ∨ c = 12 ∨ c = 13 ∨ c = 32 then 1
    else match r with
      | [] => 0
      | b :: r2 =>
        if b = 0xC2 ∧ (c = 0x85 ∨ c = 0xA0) then 2
        else match r2 with
          | [] => 0
          | a :: _ =>
            if a = 0xE1 ∧ b = 0x9A ∧ c = 0x80 then 3
            else if a = 0xE2 ∧ b = 0x80 ∧ ((0x80 ≤ c ∧ c ≤ 0x8A) ∨ c = 0xA8 ∨ c = 0xA9 ∨ c = 0xAF) then 3
            else if a = 0xE2 ∧ b = 0x81 ∧ c = 0x9F then 3
            else if a = 0xE3 ∧ b = 0x80 ∧ c = 0x80 then 3
            else 0

/-- Repeatedly drop a leading white-space rune, at most `n` times. -/
def trimLeftN : Nat → GoString → GoString
  | 0, s => s
  | n + 1, s =>
    match spaceWidth s with
    | 0 => s
    | w + 1 => trimLeftN n (s.drop (w + 1))

/-- Repeatedly drop a trailing white-space rune of the string whose reversal
    is given, at most `n` times. -/
def trimRevN : Nat → GoString → GoString
  | 0, r => r
  | n + 1, r =>
    match spaceWidthRev r with
    | 0 => r
    | w + 1 => trimRevN n (r.drop (w + 1))

/-- Go `strings.TrimLeftFunc(s, unicode.IsSpace)`. -/
def TrimLeftSpace (s : GoString) : GoString := trimLeftN s.length s

/-- Go `strings.TrimRightFunc(s, unicode.IsSpace)`. -/
def TrimRightSpace (s : GoString) : GoString := (trimRevN s.length s.reverse).reverse

/-- Go `strings.TrimSpace`: leading, then trailing white space removed. -/
def TrimSpace (s : GoString) : GoString := TrimRightSpace (TrimLeftSpace s)

/-- Go `strings.Trim(s, cutset)` for an ASCII cutset: leading and trailing
    bytes of the cutset removed. -/
def Trim (s cutset : GoString) : GoString :=
  ((s.dropWhile fun c => cutset.contains c).reverse.dropWhile fun c => cutset.contains c).reverse

/-- Go `strings.Split(s, sep)` for a one-byte separator: the pieces between
    the occurrences of `sep`, always at least one piece. -/
def Split (s : GoString) (sep : Nat) : List GoString :=
  match s with
  | [] => [[]]
  | c :: r =>
    if c = sep then [] :: Split r sep
    else match Split r sep with
      | [] => [[c]]
      | p :: ps => (c :: p) :: ps

/-- Go `strings.SplitN(s, sep, 2)` for a one-byte separator: the text before
    the first `sep` and the text after it, or `s` alone when there is none. -/
def SplitN2 (s : GoString) (sep : Nat) : List GoString :=
  if sep ∈ s then [s.takeWhile (fun c => c != sep), (s.dropWhile (fun c => c != sep)).drop 1]
  else [s]

/-- Go `strings.ReplaceAll(s, "\\\"", "\"")`: every backslash-quote pair,
    left to right and without overlap, becomes a quote. -/
def unescapeQuotes : GoString → GoString
  | [] => []
  | [c] => [c]
  | a :: b :: r =>
    if a = 92 ∧ b = 34 then 34 :: unescapeQuotes r
    else a :: unescapeQuotes (b :: r)

/-- Go `strings.ReplaceAll(s, "'", "\"")`. -/
def singleToDoubleQuotes (s : GoString) : GoString := s.map fun c => if c = 39 then 34 else c

/-- ASCII part of Go `strings.ToLower`. -/
def lowerByte (c : Nat) : Nat := if 65 ≤ c ∧ c ≤ 90 then c + 32 else c

/-! ## Library behaviour taken as a parameter -/

/-- The parts of the Go library whose result is not computed here:
    floating-point range, the Unicode case table and the AES block cipher. -/
structure Lib where
  /-- Whether `strconv.ParseFloat(s, 64)` returns no error, for `s` of float shape. -/
  parseFloatOk : GoString → Bool
  /-- Whether every number of the valid JSON text `s` is in the range of a
      float64, so that `json.Unmarshal` into a `map[string]interface{}` returns
      no error. -/
  jsonNumbersOk : GoString → Bool
  /-- Go `strings.Map(unicode.ToLower, s)`, used for strings with a byte ≥ 0x80. -/
  mapLower : GoString → GoString
  /-- AES-CFB decryption (`aes.NewCipher`, `cipher.NewCFBDecrypter`,
      `XORKeyStream`) of `data` under a key of valid size and a 16-byte `iv`. -/
  aesCFB : (key iv data : GoString) → GoString

/-- Go `strings.ToLower`: byte-wise on ASCII-only strings, the Unicode mapping
    otherwise. -/
def ToLower (lib : Lib) (s : GoString) : GoString :=
  if s.all (fun c => c < 0x80) then s.map lowerByte else lib.mapLower s

/-! ## Dynamic values and errors -/

/-- The dynamic values (`interface{}`) a caller stores or passes as a default:
    nil, a string, an int, a bool, or a value of any other dynamic type (an
    error, a `fmt.Stringer`, a named string type, ...), which the program only
    ever formats with `%v` or asserts to be a string: it is given by the text
    `%v` prints for it. -/
inductive Any where
  | nil
  | str (s : GoString)
  | int (n : Int)
  | bool (b : Bool)
  | other (printed : GoString)
  deriving DecidableEq, Repr

/-- The value a retrieval returns in its `interface{}` slot.  A float64 is
    represented by the text `strconv.ParseFloat` read it from, a decoded
    `map[string]interface{}` by the JSON text it was decoded from; a list is
    the `[]interface{}` of strings both the list and the tuple conversion
    build; `other` is a stored value of another dynamic type, left as it is. -/
inductive Value where
  | nil
  | str (s : GoString)
  | int (n : Int)
  | float (src : GoString)
  | bool (b : Bool)
  | list (xs : List GoString)
  | map (src : Option GoString)
  | ifaceMapNil
  | other (printed : GoString)
  deriving DecidableEq, Repr

/-- The errors of the program and of the library calls it wraps (`%w`). -/
inductive Err where
  | atoiSyntax (s : GoString)
  | atoiRange (s : GoString)
  | parseFloatRange (s : GoString)
  | jsonUnmarshal (s : GoString)
  | base64Corrupt
  | aesTooShort
  | aesCipher
  | getwdFailed
  | projectRootNotFound
  | findRootFailed (cause : Err)
  | fileNotExist
  | statFailed
  | openFailed
  | notEncrypted (v : Any)
  | decryptFailed (cause : Err)
  | convertDecryptedToType (kind : GoString) (cause : Err)
  | convertDecrypted (cause : Err)
  | convertToType (kind : GoString) (cause : Err)
  | convertValue (cause : Err)
  | jsonToMap (s : GoString) (cause : Err)
  | invalidType (what kind : GoString)
  | unableToConvert (what kind : GoString)
  | invalidMapFormat
  | unmarshalToMap (cause : Err)
  | notString (v : Any)
  | varToString (key : GoString) (cause : Err)
  | varToType (key : GoString) (cause : Err)
  | base64Hash (cause : Err)
  | aesValue (cause : Err)
  deriving DecidableEq, Repr

/-- Decimal digits of a natural number, as bytes. -/
def fmtNat (n : Nat) : GoString := (Nat.toDigits 10 n).map Char.toNat

/-- Go `fmt.Sprintf("%v", v)`. -/
def Sprint : Any → GoString
  | .nil => bytes "<nil>"
  | .str s => s
  | .int n => if n < 0 then 45 :: fmtNat n.natAbs else fmtNat n.natAbs
  | .bool b => if b then bytes "true" else bytes "false"
  | .other printed => printed

/-! ## Package `strconv` and the two anchored patterns -/

/-- ASCII digit. -/
def isDigit (c : Nat) : Bool := decide (48 ≤ c) && decide (c ≤ 57)

/-- The text after an optional leading sign. -/
def stripSign : GoString → GoString
  | 43 :: r => r
  | 45 :: r => r
  | s => s

/-- Whole-string match of the pattern `^[+-]?\d+$`. -/
def matchInteger (s : GoString) : Bool :=
  !(stripSign s).isEmpty && (stripSign s).all isDigit

/-- Whole-string match of the pattern `^[+-]?\d+(\.\d+)?$`. -/
def matchFloat (s : GoString) : Bool :=
  let d := stripSign s
  let ip := d.takeWhile isDigit
  !ip.isEmpty &&
    (match d.dropWhile isDigit with
     | [] => true
     | 46 :: fr => !fr.isEmpty && fr.all isDigit
     | _ => false)

/-- Value of a run of decimal digits. -/
def digitsValue (ds : GoString) : Nat := ds.foldl (fun n c => n * 10 + (c - 48)) 0

/-- Go `strconv.Atoi` with a 64-bit `int`: the value and a nil error, or the
    nearest bound and a range error, or 0 and a syntax error. -/
def Atoi (s : GoString) : Int × Option Err :=
  let neg := s.head? == some 45
  let ds := stripSign s
  if ds.isEmpty || !ds.all isDigit then (0, some (.atoiSyntax s))
  else
    let n := digitsValue ds
    if neg then
      if n > 2 ^ 63 then (-(2 ^ 63 : Int), some (.atoiRange s)) else (-(n : Int), none)
    else
      if n ≥ 2 ^ 63 then ((2 ^ 63 : Int) - 1, some (.atoiRange s)) else ((n : Int), none)

/-- Go `strconv.ParseFloat(s, 64)` for `s` of float shape. -/
def ParseFloat (lib : Lib) (s : GoString) : Value × Option Err :=
  if lib.parseFloatOk s then (.float s, none) else (.float s, some (.parseFloatRange s))

/-! ## Package `encoding/json`: the validity scanner -/

/-- The step functions of the scanner of `encoding/json` (its `state...`
    functions). -/
inductive Step where
  | beginValueOrEmpty | beginValue | beginStringOrEmpty | beginString
  | endValue | endTop
  | inString | inStringEsc | inStringEscU | inStringEscU1 | inStringEscU12 | inStringEscU123
  | neg | one | zero | dot | dot0 | exp | expSign | exp0
  | litT | litTr | litTru | litF | litFa | litFal | litFals | litN | litNu | litNul
  | error
  deriving DecidableEq, Repr

/-- What the scanner is in the middle of, one entry per open object or array. -/
inductive ParseState where
  | objectKey | objectValue | arrayValue
  deriving DecidableEq, Repr

/-- The scanner: next step function, stack of open composites (innermost
    first), whether the top-level value has ended, whether an error was met. -/
structure Scanner where
  step : Step
  parseState : List ParseState
  endTop : Bool
  err : Bool
  deriving DecidableEq, Repr

/-- The scanner limit on nesting. -/
def maxNestingDepth : Nat := 10000

/-- JSON white space. -/
def jsonIsSpace (c : Nat) : Bool := c == 32 || c == 9 || c == 13 || c == 10

/-- Hexadecimal digit of a `\u` escape. -/
def jsonIsHex (c : Nat) : Bool :=
  (decide (48 ≤ c) && decide (c ≤ 57)) || (decide (97 ≤ c) && decide (c ≤ 102)) ||
    (decide (65 ≤ c) && decide (c ≤ 70))

/-- Scanner `reset`. -/
def Scanner.reset : Scanner := { step := .beginValue, parseState := [], endTop := false, err := false }

/-- Scanner `error`: records the error and moves to the error state. -/
def Scanner.error (s : Scanner) : Scanner := { s with step := .error, err := true }

/-- Scanner `pushParseState`, with the new step already chosen. -/
def Scanner.pushParseState (s : Scanner) (next : Step) (ps : ParseState) : Scanner :=
  let s1 : Scanner := { s with step := next, parseState := ps :: s.parseState }
  if s1.parseState.length ≤ maxNestingDepth then s1 else s1.error

/-- Scanner `popParseState`. -/
def Scanner.popParseState (s : Scanner) : Scanner :=
  let rest := s.parseState.drop 1
  if rest.isEmpty then { s with parseState := rest, step := .endTop, endTop := true }
  else { s with parseState := rest, step := .endValue }

/-- Scanner `stateEndTop`. -/
def stateEndTop (s : Scanner) (c : Nat) : Scanner :=
  if !jsonIsSpace c then s.error else s

/-- Scanner `stateEndValue`. -/
def stateEndValue (s : Scanner) (c : Nat) : Scanner :=
  match s.parseState with
  | [] => stateEndTop { s with step := .endTop, endTop := true } c
  | ps :: rest =>
    if jsonIsSpace c then { s with step := .endValue }
    else match ps with
      | .objectKey =>
        if c = 58 then { s with parseState := .objectValue :: rest, step := .beginValue }
        else s.error
      | .objectValue =>
        if c = 44 then { s with parseState := .objectKey :: rest, step := .beginString }
        else if c = 125 then s.popParseState
        else s.error
      | .arrayValue =>
        if c = 44 then { s with step := .beginValue }
        else if c = 93 then s.popParseState
        else s.error

/-- Scanner `stateBeginValue`. -/
def stateBeginValue (s : Scanner) (c : Nat) : Scanner :=
  if jsonIsSpace c then s
  else if c = 123 then s.pushParseState .beginStringOrEmpty .objectKey
  else if c = 91 then s.pushParseState .beginValueOrEmpty .arrayValue
  else if c = 34 then { s with step := .inString }
  else if c = 45 then { s with step := .neg }
  else if c = 48 then { s with step := .zero }
  else if c = 116 then { s with step := .litT }
  else if c = 102 then { s with step := .litF }
  else if c = 110 then { s with step := .litN }
  else if 49 ≤ c ∧ c ≤ 57 then { s with step := .one }
  else s.error

/-- Scanner `stateBeginValueOrEmpty`. -/
def stateBeginValueOrEmpty (s : Scanner) (c : Nat) : Scanner :=
  if jsonIsSpace c then s
  else if c = 93 then stateEndValue s c
  else stateBeginValue s c

/-- Scanner `stateBeginString`. -/
def stateBeginString (s : Scanner) (c : Nat) : Scanner :=
  if jsonIsSpace c then s
  else if c = 34 then { s with step := .inString }
  else s.error

/-- Scanner `stateBeginStringOrEmpty`. -/
def stateBeginStringOrEmpty (s : Scanner) (c : Nat) : Scanner :=
  if jsonIsSpace c then s
  else if c = 125 then
    stateEndValue { s with parseState := .objectValue :: s.parseState.drop 1 } c
  else stateBeginString s c

/-- Scanner `state0`: after a leading `0`, or after the integer digits. -/
def state0 (s : Scanner) (c : Nat) : Scanner :=
  if c = 46 then { s with step := .dot }
  else if c = 101 ∨ c = 69 then { s with step := .exp }
  else stateEndValue s c

/-- Scanner `stateESign`. -/
def stateESign (s : Scanner) (c : Nat) : Scanner :=
  if isDigit c then { s with step := .exp0 } else s.error

/-- One byte through the scanner: the `step` call of `checkValid`. -/
def Scanner.next (s : Scanner) (c : Nat) : Scanner :=
  match s.step with
  | .beginValueOrEmpty => stateBeginValueOrEmpty s c
  | .beginValue => stateBeginValue s c
  | .beginStringOrEmpty => stateBeginStringOrEmpty s c
  | .beginString => stateBeginString s c
  | .endValue => stateEndValue s c
  | .endTop => stateEndTop s c
  | .inString =>
    if c = 34 then { s with step := .endValue }
    else if c = 92 then { s with step := .inStringEsc }
    else if c < 32 then s.error
    else s
  | .inStringEsc =>
    if c = 98 ∨ c = 102 ∨ c = 110 ∨ c = 114 ∨ c = 116 ∨ c = 92 ∨ c = 47 ∨ c = 34 then
      { s with step := .inString }
    else if c = 117 then { s with step := .inStringEscU }
    else s.error
  | .inStringEscU => if jsonIsHex c then { s with step := .inStringEscU1 } else s.error
  | .inStringEscU1 => if jsonIsHex c then { s with step := .inStringEscU12 } else s.error
  | .inStringEscU12 => if jsonIsHex c then { s with step := .inStringEscU123 } else s.error
  | .inStringEscU123 => if jsonIsHex c then { s with step := .inString } else s.error
  | .neg =>
    if c = 48 then { s with step := .zero }
    else if 49 ≤ c ∧ c ≤ 57 then { s with step := .one }
    else s.error
  | .one => if isDigit c then { s with step := .one } else state0 s c
  | .zero => state0 s c
  | .dot => if isDigit c then { s with step := .dot0 } else s.error
  | .dot0 =>
    if isDigit c then s
    else if c = 101 ∨ c = 69 then { s with step := .exp }
    else stateEndValue s c
  | .exp => if c = 43 ∨ c = 45 then { s with step := .expSign } else stateESign s c
  | .expSign => stateESign s c
  | .exp0 => if isDigit c then s else stateEndValue s c
  | .litT => if c = 114 then { s with step := .litTr } else s.error
  | .litTr => if c = 117 then { s with step := .litTru } else s.error
  | .litTru => if c = 101 then { s with step := .endValue } else s.error
  | .litF => if c = 97 then { s with step := .litFa } else s.error
  | .litFa => if c = 108 then { s with step := .litFal } else s.error
  | .litFal => if c = 115 then { s with step := .litFals } else s.error
  | .litFals => if c = 101 then { s with step := .endValue } else s.error
  | .litN => if c = 117 then { s with step := .litNu } else s.error
  | .litNu => if c = 108 then { s with step := .litNul } else s.error
  | .litNul => if c = 108 then { s with step := .endValue } else s.error
  | .error => s

/-- Scanner `eof`: whether the input may end here. -/
def Scanner.eof (s : Scanner) : Bool :=
  if s.err then false
  else if s.endTop then true
  else (s.next 32).endTop

/-- Go `json.Valid` (`checkValid` returning nil): the scanner accepts every
    byte and the end of input. -/
def jsonValid (data : GoString) : Bool := (data.foldl Scanner.next Scanner.reset).eof

/-- Whether the JSON text starts, after white space, with the literal `null`
    (for a valid text: whether its value is null). -/
def jsonIsNull (data : GoString) : Bool := (data.dropWhile jsonIsSpace).head? == some 110

/-! ## Package `encoding/base64`, standard encoding -/

/-- The standard alphabet: the character of a 6-bit value. -/
def b64EncodeChar (v : Nat) : Nat :=
  if v < 26 then v + 65
  else if v < 52 then v - 26 + 97
  else if v < 62 then v - 52 + 48
  else if v = 62 then 43
  else 47

/-- The decode map of the standard alphabet: the 6-bit value of a character,
    `none` for a byte outside the alphabet. -/
def b64DecodeChar (c : Nat) : Option Nat :=
  if 65 ≤ c ∧ c ≤ 90 then some (c - 65)
  else if 97 ≤ c ∧ c ≤ 122 then some (c - 97 + 26)
  else if 48 ≤ c ∧ c ≤ 57 then some (c - 48 + 52)
  else if c = 43 then some 62
  else if c = 47 then some 63
  else none

/-- Go `base64.StdEncoding.EncodeToString`. -/
def b64Encode : GoString → GoString
  | [] => []
  | [a] =>
    let val := a * 65536
    [b64EncodeChar (val / 262144 % 64), b64EncodeChar (val / 4096 % 64), 61, 61]
  | [a, b] =>
    let val := a * 65536 + b * 256
    [b64EncodeChar (val / 262144 % 64), b64EncodeChar (val / 4096 % 64),
      b64EncodeChar (val / 64 % 64), 61]
  | a :: b :: c :: r =>
    let val := a * 65536 + b * 256 + c
    b64EncodeChar (val / 262144 % 64) :: b64EncodeChar (val / 4096 % 64) ::
      b64EncodeChar (val / 64 % 64) :: b64EncodeChar (val % 64) :: b64Encode r

/-- The bytes of one quantum: `dbuf` holds its 6-bit values (2, 3 or 4 of
    them), and one byte less than that comes out. -/
def b64Quantum (dbuf : List Nat) : List Nat :=
  let val := dbuf.getD 0 0 * 262144 + dbuf.getD 1 0 * 4096 + dbuf.getD 2 0 * 64 + dbuf.getD 3 0
  [val / 65536 % 256, val / 256 % 256, val % 256].take (dbuf.length - 1)

/-- The newline bytes the decoder skips. -/
def b64SkipNewlines (s : GoString) : GoString := s.dropWhile fun c => c == 10 || c == 13

/-- The decoding loop (`Decode` over `decodeQuantum`), non-strict, with
    padding required: `dbuf` are the 6-bit values of the quantum in progress,
    `out` the bytes decoded so far; `none` is a `CorruptInputError`. -/
def b64DecodeLoop : GoString → List Nat → List Nat → Option (List Nat)
  | [], dbuf, out => if dbuf.isEmpty then some out else none
  | c :: rest, dbuf, out =>
    match b64DecodeChar c with
    | some v =>
      if dbuf.length = 3 then b64DecodeLoop rest [] (out ++ b64Quantum (dbuf ++ [v]))
      else b64DecodeLoop rest (dbuf ++ [v]) out
    | none =>
      if c = 10 ∨ c = 13 then b64DecodeLoop rest dbuf out
      else if c ≠ 61 then none
      else match dbuf.length with
        | 0 => none
        | 1 => none
        | 2 =>
          match b64SkipNewlines rest with
          | [] => none
          | c2 :: r2 =>
            if c2 ≠ 61 then none
            else if (b64SkipNewlines r2).isEmpty then some (out ++ b64Quantum dbuf)
            else none
        | _ => if (b64SkipNewlines rest).isEmpty then some (out ++ b64Quantum dbuf) else none

/-- Go `base64.StdEncoding.DecodeString`, the data kept only on success. -/
def b64DecodeString (s : GoString) : Option GoString := b64DecodeLoop s [] []

/-! ## The program: shape predicates -/

/-- Source `isJSON`. -/
def isJSON (myjson : Any) : Bool := jsonValid (Sprint myjson)

/-- Source `isInteger`. -/
def isInteger (s : Any) : Bool := matchInteger (Sprint s)

/-- Source `isFloat`. -/
def isFloat (s : Any) : Bool := matchFloat (Sprint s)

/-- Source `isBoolean`. -/
def isBoolean (s : Any) : Bool :=
  let str := Sprint s
  str == bytes "true" || str == bytes "false" || str == bytes "True" || str == bytes "False"

/-- Source `isList`. -/
def isList (value : Any) : Bool :=
  let str := TrimSpace (Sprint value)
  HasPrefix str (bytes "[") && HasSuffix str (bytes "]")

/-- Source `isDict`. -/
def isDict (value : Any) : Bool :=
  let str := TrimSpace (Sprint value)
  HasPrefix str (bytes "\x7b") && HasSuffix str (bytes "\x7d")

/-- Source `isTuple`. -/
def isTuple (value : Any) : Bool :=
  let str := TrimSpace (Sprint value)
  HasPrefix str (bytes "(") && HasSuffix str (bytes ")")

/-- Source `isHashed`. -/
def isHashed (value : Any) : Bool :=
  let str := TrimSpace (Sprint value)
  (HasPrefix str (bytes "enc(") || HasPrefix str (bytes "ENC(")) && HasSuffix str (bytes ")")

/-- Source `isAllowedType`. -/
def isAllowedType (kind : GoString) : Bool :=
  [bytes "str", bytes "string", bytes "bool", bytes "boolean",
   bytes "float", bytes "int", bytes "integer",
   bytes "list", bytes "array", bytes "tuple",
   bytes "dict", bytes "map", bytes "json"].contains kind

/-! ## The program: conversions -/

/-- Go slice expression `s[lo:hi]`: the fault is `none`. -/
def goSlice (s : GoString) (lo hi : Int) : Option GoString :=
  if 0 ≤ lo ∧ lo ≤ hi ∧ hi ≤ (s.length : Int) then some ((s.drop lo.toNat).take (hi - lo).toNat)
  else none

/-- Source `convertStringToMap`. -/
def convertStringToMap (lib : Lib) (s : GoString) : Value × Option Err :=
  let s := TrimSpace s
  let s := if Contains s (bytes "'") && !Contains s (bytes "\"") then singleToDoubleQuotes s else s
  if !(HasPrefix s (bytes "\x7b") && HasSuffix s (bytes "\x7d")) then (.map none, some .invalidMapFormat)
  else if jsonValid s && lib.jsonNumbersOk s then (.map (some s), none)
  else (.map none, some (.unmarshalToMap (.jsonUnmarshal s)))

/-- Source `convertToString`. -/
def convertToString (input : Any) : GoString × Option Err :=
  match input with
  | .str s => (s, none)
  | v => ([], some (.notString v))

/-- The list built by the list and tuple branches: the text between the first
    and the last byte, trimmed, split at every comma, each piece trimmed. -/
def splitElements (s : GoString) : Option (List GoString) :=
  (goSlice s 1 ((s.length : Int) - 1)).map fun inner =>
    (Split (TrimSpace inner) 44).map TrimSpace

/-- Source `convertInputToType`. -/
def convertInputToType (lib : Lib) (s : GoString) : Option (Value × Option Err) :=
  if isInteger (.str s) then some (.int (Atoi s).1, (Atoi s).2)
  else if isFloat (.str s) then some (ParseFloat lib s)
  else if isBoolean (.str s) then
    some (.bool (ToLower lib s == bytes "true" || ToLower lib s == bytes "false"), none)
  else if isList (.str s) then (splitElements s).map fun l => (.list l, none)
  else if isTuple (.str s) then (splitElements s).map fun l => (.list l, none)
  else if isDict (.str s) then some (convertStringToMap lib s)
  else if isJSON (.str s) then
    if jsonIsNull s then some (.ifaceMapNil, none)
    else some (.nil, some (.jsonToMap s (.jsonUnmarshal s)))
  else some (.str s, none)

/-- Source `convertToSpecificType`. -/
def convertToSpecificType (lib : Lib) (what kind : GoString) : Option (Value × Option Err) :=
  let low := ToLower lib kind
  if !isAllowedType low then some (.nil, some (.invalidType what kind))
  else if low = bytes "str" ∨ low = bytes "string" then some (.str what, none)
  else if low = bytes "bool" ∨ low = bytes "boolean" then
    if isBoolean (.str what) then some (.bool (ToLower lib what == bytes "true"), none)
    else some (.nil, some (.unableToConvert what kind))
  else if low = bytes "float" then
    if isFloat (.str what) then some (ParseFloat lib what)
    else some (.nil, some (.unableToConvert what kind))
  else if low = bytes "int" ∨ low = bytes "integer" then
    if isInteger (.str what) then some (.int (Atoi what).1, (Atoi what).2)
    else some (.nil, some (.unableToConvert what kind))
  else if low = bytes "list" ∨ low = bytes "array" ∨ low = bytes "tuple" then
    if isList (.str what) || isTuple (.str what) then
      (splitElements what).map fun l => (.list l, none)
    else some (.nil, some (.unableToConvert what kind))
  else if low = bytes "dict" ∨ low = bytes "map" ∨ low = bytes "json" then
    if isDict (.str what) || isJSON (.str what) then some (convertStringToMap lib what)
    else some (.nil, some (.unableToConvert what kind))
  else some (.str what, none)

/-! ## The program: variable substitution -/

/-- Character class `[A-Za-z_]`. -/
def isNameStart (c : Nat) : Bool :=
  (decide (65 ≤ c) && decide (c ≤ 90)) || (decide (97 ≤ c) && decide (c ≤ 122)) || c == 95

/-- Character class `[A-Za-z0-9_]`. -/
def isNameChar (c : Nat) : Bool := isNameStart c || isDigit c

/-- Length of the match of the pattern `\$\{?([A-Za-z_][A-Za-z0-9_]*)\}?` at
    the start of `s` (every quantifier greedy), 0 when it does not match there;
    a match is never empty. -/
def varMatchLen (s : GoString) : Nat :=
  match s with
  | 36 :: r =>
    let ob := if r.head? == some 123 then 1 else 0
    match r.drop ob with
    | c :: r2 =>
      if isNameStart c then
        let n := (r2.takeWhile isNameChar).length
        let cb := if (r2.drop n).head? == some 125 then 1 else 0
        1 + ob + 1 + n + cb
      else 0
    | [] => 0
  | _ => 0

/-- Go `ReplaceAllStringFunc` for that pattern: the matches are found left to
    right without overlap, each is replaced by `repl` of its text, the text
    between them is copied.  The first argument counts the bytes of the
    current match still to be passed over. -/
def replaceAllFunc (repl : GoString → GoString) : Nat → GoString → GoString
  | _, [] => []
  | k + 1, _ :: r => replaceAllFunc repl k r
  | 0, c :: r =>
    match varMatchLen (c :: r) with
    | 0 => c :: replaceAllFunc repl 0 r
    | n + 1 => repl ((c :: r).take (n + 1)) ++ replaceAllFunc repl n r

/-- The texts of the matches of the pattern in `s`, left to right. -/
def varMatches : Nat → GoString → List GoString
  | _, [] => []
  | k + 1, _ :: r => varMatches k r
  | 0, c :: r =>
    match varMatchLen (c :: r) with
    | 0 => varMatches 0 r
    | n + 1 => (c :: r).take (n + 1) :: varMatches n r

/-- The key/value mapping of the store, keys unique, in insertion order. -/
abbrev Contents := List (GoString × Any)

/-- Go map read `m[k]`. -/
def mapGet (m : Contents) (k : GoString) : Option Any := m.lookup k

/-- Go map write `m[k] = v`. -/
def mapSet : Contents → GoString → Any → Contents
  | [], k, v => [(k, v)]
  | (k1, v1) :: r, k, v => if k1 = k then (k, v) :: r else (k1, v1) :: mapSet r k v

/-- The process environment: `os.LookupEnv`. -/
abbrev Environ := GoString → Option GoString

/-- The replacement function of `substituteVariables`, applied to one match. -/
def substituteMatch (getenv : Environ) (vars : Contents) (m : GoString) : GoString :=
  let varName := Trim m (bytes "$\x7b\x7d")
  match mapGet vars varName with
  | some val => Sprint val
  | none =>
    match getenv varName with
    | some sysVal => sysVal
    | none => m

/-- Source `substituteVariables`. -/
def substituteVariables (getenv : Environ) (value : GoString) (vars : Contents) : GoString :=
  replaceAllFunc (substituteMatch getenv vars) 0 value

/-! ## The program: decryption -/

/-- Source `decryptAES`. -/
def decryptAES (lib : Lib) (encryptedData key : GoString) : GoString × Option Err :=
  match b64DecodeString encryptedData with
  | none => ([], some (.base64Hash .base64Corrupt))
  | some data =>
    if data.length < 16 then ([], some .aesTooShort)
    else if ¬ (key.length = 16 ∨ key.length = 24 ∨ key.length = 32) then ([], some .aesCipher)
    else (lib.aesCFB key (data.take 16) (data.drop 16), none)

/-- Source `decryptValue`. -/
def decryptValue (lib : Lib) (encryptedValue key : GoString) : GoString × Option Err :=
  let data := TrimPrefix encryptedValue (bytes "ENC(")
  let data := TrimPrefix data (bytes "enc(")
  let data := TrimSuffix data (bytes ")")
  if key.isEmpty then
    match b64DecodeString data with
    | none => ([], some (.base64Hash .base64Corrupt))
    | some decryptedValue => (decryptedValue, none)
  else
    match decryptAES lib encryptedValue key with
    | (_, some err) => ([], some (.aesValue err))
    | (decryptedValue, none) => (decryptedValue, none)

/-! ## The program: the store -/

/-- Source `EnvData`. -/
structure EnvData where
  FilePath : GoString
  EnvContents : Contents
  EnvError : Option Err
  deriving DecidableEq, Repr

/-- The value looked up in the store, the default when the key is absent. -/
def lookupOr (env : EnvData) (which : GoString) (defaultValue : Any) : Any :=
  match mapGet env.EnvContents which with
  | some value => value
  | none => defaultValue

/-- Source `GetValue`. -/
def GetValue (lib : Lib) (env : EnvData) (which kind : GoString) (defaultValue : Any) :
    Option (Value × Option Err) :=
  match env.EnvError with
  | some e => some (.nil, some e)
  | none =>
    let value := lookupOr env which defaultValue
    if !kind.isEmpty && isAllowedType kind then
      match convertToSpecificType lib (Sprint value) kind with
      | none => none
      | some (_, some err) => some (.nil, some (.convertToType kind err))
      | some (convertedValue, none) => some (convertedValue, none)
    else
      match convertInputToType lib (Sprint value) with
      | none => none
      | some (_, some err) => some (.nil, some (.convertValue err))
      | some (convertedValue, none) => some (convertedValue, none)

/-- Source `GetEncryptedValue`; the type assertion `value.(string)` faults on a
    value that is not a string. -/
def GetEncryptedValue (lib : Lib) (env : EnvData) (which kind : GoString) (defaultValue : Any)
    (decryptionKey : GoString) : Option (Value × Option Err) :=
  match env.EnvError with
  | some e => some (.nil, some e)
  | none =>
    let value := lookupOr env which defaultValue
    if !isHashed value then some (.nil, some (.notEncrypted value))
    else
      match value with
      | .str str =>
        match decryptValue lib str decryptionKey with
        | (_, some err) => some (.nil, some (.decryptFailed err))
        | (decryptedValue, none) =>
          if !kind.isEmpty && isAllowedType kind then
            match convertToSpecificType lib decryptedValue kind with
            | none => none
            | some (_, some err) => some (.nil, some (.convertDecryptedToType kind err))
            | some (convertedValue, none) => some (convertedValue, none)
          else
            match convertInputToType lib decryptedValue with
            | none => none
            | some (_, some err) => some (.nil, some (.convertDecrypted err))
            | some (convertedValue, none) => some (convertedValue, none)
      | _ => none

/-! ## The program: ingestion -/

/-- One iteration of the scanning loop of `parse`, on the text of one line;
    `none` is the fault of the slice expression `value[1 : len(value)-1]`. -/
def parseLine (getenv : Environ) (contents : Contents) (text : GoString) : Option Contents :=
  let line := TrimSpace text
  if line.isEmpty || HasPrefix line (bytes "#") then some contents
  else
    match SplitN2 line 61 with
    | [p0, p1] =>
      let key := TrimSpace p0
      let value := TrimSpace p1
      let unquoted :=
        if HasPrefix value (bytes "\"") && HasSuffix value (bytes "\"") then
          (goSlice value 1 ((value.length : Int) - 1)).map unescapeQuotes
        else some value
      match unquoted with
      | none => none
      | some value =>
        if (mapGet contents key).isSome then some contents
        else some (mapSet contents key (.str (substituteVariables getenv value contents)))
    | _ => some contents

/-- The scanning loop of `parse` over the lines of the file, in order. -/
def parseLines (getenv : Environ) : Contents → List GoString → Option Contents
  | contents, [] => some contents
  | contents, text :: rest =>
    match parseLine getenv contents text with
    | none => none
    | some contents1 => parseLines getenv contents1 rest


/-! ## The program: files -/

/-- What `os.Stat` answers for a path. -/
inductive StatResult where
  | ok
  | notExist
  | failed
  deriving DecidableEq, Repr

/-- The file system as `findRoot` and `parse` see it: the working directory
    (`none` when `os.Getwd` fails), `os.Stat`, `filepath.Join`, `filepath.Dir`,
    and for a path that opens the lines `bufio.Scanner` yields from it (`none`
    when `os.Open` fails). -/
structure FileSystem where
  getwd : Option GoString
  stat : GoString → StatResult
  join : GoString → GoString → GoString
  dir : GoString → GoString
  openLines : GoString → Option (List GoString)

/-- The marker files of `findRoot`. -/
def markerFiles : List GoString :=
  [bytes "go.mod", bytes ".git", bytes ".project-root", bytes ".root"]

/-- The walk of `findRoot` from `currentDir` towards the root, at most `fuel`
    directories; `none` when the walk has not ended by then. -/
def findRootFrom (fs : FileSystem) : Nat → GoString → Option (GoString × Option Err)
  | 0, _ => none
  | fuel + 1, currentDir =>
    if markerFiles.any (fun marker => fs.stat (fs.join currentDir marker) == .ok) then
      some (currentDir, none)
    else
      let parentDir := fs.dir currentDir
      if parentDir = currentDir then some ([], some .projectRootNotFound)
      else findRootFrom fs fuel parentDir

/-- Source `findRoot`. -/
def findRoot (fs : FileSystem) (fuel : Nat) : Option (GoString × Option Err) :=
  match fs.getwd with
  | none => some ([], some .getwdFailed)
  | some currentDir => findRootFrom fs fuel currentDir

/-- Source `parse`: the store after the call; `none` when the walk of
    `findRoot` does not end within `fuel` or the line loop faults. -/
def parse (fs : FileSystem) (getenv : Environ) (fuel : Nat) (env : EnvData)
    (fileName : GoString) (useRootPath : Bool) : Option EnvData :=
  match findRoot fs fuel with
  | none => none
  | some (_, some err) => some { env with EnvError := some (.findRootFailed err) }
  | some (rootPath, none) =>
    let env1 : EnvData :=
      { env with FilePath := if !useRootPath then fileName else fs.join rootPath fileName }
    match fs.stat env1.FilePath with
    | .notExist => some { env1 with EnvError := some .fileNotExist }
    | .failed => some { env1 with EnvError := some .statFailed }
    | .ok =>
      match fs.openLines env1.FilePath with
      | none => some { env1 with EnvError := some .openFailed }
      | some lines =>
        match parseLines getenv env1.EnvContents lines with
        | none => none
        | some contents => some { env1 with EnvContents := contents }

/-- The calls of `parse` on a list of file names, in order. -/
def parseAll (fs : FileSystem) (getenv : Environ) (fuel : Nat) (useRootPath : Bool) :
    EnvData → List GoString → Option EnvData
  | env, [] => some env
  | env, fileName :: rest =>
    match parse fs getenv fuel env fileName useRootPath with
    | none => none
    | some env1 => parseAll fs getenv fuel useRootPath env1 rest

/-- Source `EnvParser` (the method): the three optional parameters, each
    `none` when absent or of another type. -/
def EnvData.EnvParser (fs : FileSystem) (getenv : Environ) (fuel : Nat) (env : EnvData)
    (fileName : Option GoString) (rootPath : Option Bool) (fileNames : Option (List GoString)) :
    Option EnvData :=
  let envFilename := fileName.getD (bytes ".env")
  let useRootPath := rootPath.getD true
  let envFileNames := fileNames.getD []
  match parseAll fs getenv fuel useRootPath env envFileNames with
  | none => none
  | some env1 => parse fs getenv fuel env1 envFilename useRootPath

/-- Source `NewEnvParser`. -/
def NewEnvParser (fs : FileSystem) (getenv : Environ) (fuel : Nat)
    (fileName : Option GoString) (rootPath : Option Bool) (fileNames : Option (List GoString)) :
    Option EnvData :=
  EnvData.EnvParser fs getenv fuel { FilePath := [], EnvContents := [], EnvError := none }
    fileName rootPath fileNames

/-! ## The program: the converted view -/

/-- A stored value as it stands in the result of `GetVars` when it was not
    converted. -/
def Any.toValue : Any → Value
  | .nil => .nil
  | .str s => .str s
  | .int n => .int n
  | .bool b => .bool b
  | .other printed => .other printed

/-- The mapping `GetVars` returns. -/
abbrev Vars := List (GoString × Value)

/-- Go map read on the result of `GetVars`. -/
def varsGet (m : Vars) (k : GoString) : Option Value := m.lookup k

/-- Go map write on the result of `GetVars`. -/
def varsSet : Vars → GoString → Value → Vars
  | [], k, v => [(k, v)]
  | (k1, v1) :: r, k, v => if k1 = k then (k, v) :: r else (k1, v1) :: varsSet r k v

/-- The copy `GetVars` makes of the store: one map write per entry. -/
def copyContents : Contents → Contents → Contents
  | [], vars => vars
  | (key, value) :: rest, vars => copyContents rest (mapSet vars key value)

/-- The conversion loop of `GetVars` over the entries of the copy, in the
    order the map is ranged over: `vars` is the copy being rewritten, `err` the
    field `EnvError`. -/
def getVarsLoop (lib : Lib) : Contents → Vars → Option Err → Option (Vars × Option Err)
  | [], vars, err => some (vars, err)
  | (key, value) :: rest, vars, err =>
    match convertToString value with
    | (_, some e) => getVarsLoop lib rest vars (some (.varToString key e))
    | (conv, none) =>
      match convertInputToType lib conv with
      | none => none
      | some (_, some e) => getVarsLoop lib rest vars (some (.varToType key e))
      | some (convertedValue, none) => getVarsLoop lib rest (varsSet vars key convertedValue) err

/-- Source `GetVars`: the mapping returned and the store after the call. -/
def GetVars (lib : Lib) (env : EnvData) : Option (Vars × EnvData) :=
  let copy := copyContents env.EnvContents []
  let vars : Vars := copy.map fun kv => (kv.1, kv.2.toValue)
  if vars.isEmpty then some (vars, env)
  else
    match getVarsLoop lib copy vars env.EnvError with
    | none => none
    | some (vars1, err) => some (vars1, { env with EnvError := err })
/-! ## Predicates of the claims -/

/-- A name of the pattern: `[A-Za-z_][A-Za-z0-9_]*`. -/
def isIdentifier : GoString → Bool
  | [] => false
  | c :: r => isNameStart c && r.all isNameChar

/-- The variable names the matches of the pattern in `raw` refer to. -/
def referencedNames (raw : GoString) : List GoString :=
  (varMatches 0 raw).map fun m => Trim m (bytes "$\x7b\x7d")

/-- An opaque string: no integer or float shape, none of the four boolean
    spellings, not delimited by brackets, parentheses or braces after
    trimming, and not valid JSON. -/
def isOpaque (v : GoString) : Bool :=
  !isInteger (.str v) && !isFloat (.str v) && !isBoolean (.str v) && !isList (.str v) &&
    !isTuple (.str v) && !isDict (.str v) && !isJSON (.str v)

/-- Whether `s` has the shape a recognized kind asks for: the sign-and-digits
    shape for `int` and `integer`, the decimal shape for `float`, one of the
    four boolean spellings for `bool` and `boolean`, bracket- or
    paren-delimited for `list`, `array` and `tuple`, brace-delimited or valid
    JSON for `dict`, `map` and `json`; `str` and `string` accept every shape. -/
def hasShapeOf (kind s : GoString) : Bool :=
  if kind = bytes "int" ∨ kind = bytes "integer" then isInteger (.str s)
  else if kind = bytes "float" then isFloat (.str s)
  else if kind = bytes "bool" ∨ kind = bytes "boolean" then isBoolean (.str s)
  else if kind = bytes "list" ∨ kind = bytes "array" ∨ kind = bytes "tuple" then
    isList (.str s) || isTuple (.str s)
  else if kind = bytes "dict" ∨ kind = bytes "map" ∨ kind = bytes "json" then
    isDict (.str s) || isJSON (.str s)
  else true

/-- A library instance for the examples: every float and every JSON number in
    range, no case mapping beyond ASCII, the cipher left as the identity. -/
def exampleLib : Lib :=
  { parseFloatOk := fun _ => true, jsonNumbersOk := fun _ => true,
    mapLower := fun s => s, aesCFB := fun _ _ data => data }

/-- An environment that defines nothing. -/
def emptyEnviron : Environ := fun _ => none

/-- A store holding the given contents, with no sticky error. -/
def storeOf (contents : Contents) : EnvData :=
  { FilePath := [], EnvContents := contents, EnvError := none }

/-- The integer a sign-and-digits string denotes. -/
def intValueOf (s : GoString) : Int :=
  if s.head? == some 45 then -(digitsValue (stripSign s) : Int) else (digitsValue (stripSign s) : Int)

/-- Every key of `a` is a key of `b`, with the same value. -/
def Extends (b a : Contents) : Prop := ∀ k v, mapGet a k = some v → mapGet b k = some v

/-- An upper/lower-case variant of the envelope opening `enc(`. -/
def isEncVariant (p : GoString) : Bool := p.map lowerByte == bytes "enc("

/-- A file system for the examples: the working directory `/a/b` lies under
    the project root `/a`, whose `.env` holds two lines; no other file exists. -/
def exampleFS : FileSystem :=
  { getwd := some (bytes "/a/b")
    stat := fun p => if p = bytes "/a/.git" ∨ p = bytes "/a/.env" then .ok else .notExist
    join := fun a b => a ++ bytes "/" ++ b
    dir := fun p => if p = bytes "/a/b" then bytes "/a" else bytes "/"
    openLines := fun p => if p = bytes "/a/.env" then some [bytes "A=1", bytes "B=x$A"] else none }

/-- The sign-and-digits form: an optional `+` or `-`, then one or more ASCII
    digits. -/
def IsSignedDigits (t : GoString) : Prop :=
  ∃ sign ds : GoString, (sign = [] ∨ sign = [43] ∨ sign = [45]) ∧ ds ≠ [] ∧
    (∀ c ∈ ds, 48 ≤ c ∧ c ≤ 57) ∧ t = sign ++ ds

/-- The decimal value of a sign and a run of digits (most significant first). -/
def decimalValue (sign ds : GoString) : Int :=
  let n : Nat := Nat.ofDigits 10 ((ds.map fun c => c - 48).reverse)
  if sign = [45] then -(n : Int) else (n : Int)

/-- The stored value coerces under inference to `v`, without error. -/
def CoercesTo (lib : Lib) (a : Any) (v : Value) : Prop :=
  ∃ s, a = .str s ∧ convertInputToType lib s = some (v, none)

/-- The stored value is a string whose coercion under inference returns an error. -/
def FailsCoercion (lib : Lib) (a : Any) : Prop :=
  ∃ s r e, a = .str s ∧ convertInputToType lib s = some (r, some e)

/-- The keys of a store. -/
def keysOf (c : Contents) : List GoString := c.map Prod.fst

/-! ## Variable substitution -/

theorem varMatchLen_of_ne (c : Nat) (r : GoString) (h : c ≠ 36) : varMatchLen (c :: r) = 0 := by
  unfold varMatchLen
  split
  · rename_i heq
    simp at heq
    omega
  · rfl

theorem replaceAllFunc_copy (f : GoString → GoString) (p s : GoString) (h : 36 ∉ p) :
    replaceAllFunc f 0 (p ++ s) = p ++ replaceAllFunc f 0 s := by
  induction p with
  | nil => rfl
  | cons c p ih =>
    have hc : c ≠ 36 := fun e => h (by simp [e])
    have hp : 36 ∉ p := fun e => h (by simp [e])
    show replaceAllFunc f 0 (c :: (p ++ s)) = c :: (p ++ replaceAllFunc f 0 s)
    rw [replaceAllFunc, varMatchLen_of_ne c (p ++ s) hc]
    simp only [ih hp]

theorem replaceAllFunc_copy_all (f : GoString → GoString) (p : GoString) (h : 36 ∉ p) :
    replaceAllFunc f 0 p = p := by
  have := replaceAllFunc_copy f p [] h
  simpa [replaceAllFunc] using this

theorem replaceAllFunc_skip (f : GoString → GoString) (m s : GoString) :
    replaceAllFunc f m.length (m ++ s) = replaceAllFunc f 0 s := by
  induction m with
  | nil => rfl
  | cons c m ih => simpa [replaceAllFunc] using ih

theorem isNameChar_of_start (c : Nat) (h : isNameStart c = true) : isNameChar c = true := by
  simp [isNameChar, h]

theorem not_nameChar_125 : isNameChar 125 = false := by decide

theorem isIdentifier_all {name : GoString} (h : isIdentifier name = true) :
    ∀ c ∈ name, isNameChar c = true := by
  cases name with
  | nil => simp [isIdentifier] at h
  | cons c r =>
    simp only [isIdentifier, Bool.and_eq_true, List.all_eq_true] at h
    intro x hx
    rcases List.mem_cons.mp hx with rfl | hx
    · exact isNameChar_of_start _ h.1
    · exact h.2 x hx

theorem nameChar_not_cut (c : Nat) (h : isNameChar c = true) :
    (bytes "$\x7b\x7d").contains c = false := by
  have hb : bytes "$\x7b\x7d" = [36, 123, 125] := by decide
  rw [hb]
  by_cases h1 : c = 36
  · subst h1; revert h; decide
  by_cases h2 : c = 123
  · subst h2; revert h; decide
  by_cases h3 : c = 125
  · subst h3; revert h; decide
  rw [Bool.eq_false_iff]
  intro hmem
  have : c ∈ [36, 123, 125] := by simpa using hmem
  simp at this
  omega

theorem takeWhile_name (r suf : GoString) (c : Nat) (h : ∀ x ∈ r, isNameChar x = true)
    (hc : isNameChar c = false) : (r ++ c :: suf).takeWhile isNameChar = r := by
  rw [List.takeWhile_append_of_pos h, List.takeWhile_cons_of_neg (by simp [hc])]
  simp

theorem varMatchLen_braced (name suf : GoString) (h : isIdentifier name = true) :
    varMatchLen (36 :: 123 :: (name ++ 125 :: suf)) = name.length + 3 := by
  cases name with
  | nil => simp [isIdentifier] at h
  | cons c r =>
    have hall := isIdentifier_all h
    simp only [isIdentifier, Bool.and_eq_true] at h
    have hr : ∀ x ∈ r, isNameChar x = true := fun x hx => hall x (List.mem_cons_of_mem _ hx)
    simp only [varMatchLen, List.head?_cons, beq_self_eq_true, if_true, List.drop_succ_cons,
      List.drop_zero, List.cons_append, h.1, takeWhile_name r suf 125 hr not_nameChar_125,
      List.drop_left, List.length_cons]
    omega

theorem dropWhile_of_head {p : Nat → Bool} (c : Nat) (r : List Nat) (h : p c = false) :
    (c :: r).dropWhile p = c :: r := by
  simp [List.dropWhile, h]

theorem Trim_braced (name : GoString) (h : isIdentifier name = true) :
    Trim (36 :: 123 :: (name ++ [125])) (bytes "$\x7b\x7d") = name := by
  have hall := isIdentifier_all h
  have hne : name ≠ [] := by
    intro e; subst e; simp [isIdentifier] at h
  have hcut : ∀ c ∈ name, (bytes "$\x7b\x7d").contains c = false :=
    fun c hc => nameChar_not_cut c (hall c hc)
  have h36 : (bytes "$\x7b\x7d").contains 36 = true := by decide
  have h123 : (bytes "$\x7b\x7d").contains 123 = true := by decide
  have h125 : (bytes "$\x7b\x7d").contains 125 = true := by decide
  unfold Trim
  have h1 : (36 :: 123 :: (name ++ [125])).dropWhile (fun c => (bytes "$\x7b\x7d").contains c)
      = name ++ [125] := by
    rw [List.dropWhile_cons_of_pos h36, List.dropWhile_cons_of_pos h123]
    obtain ⟨c, r, rfl⟩ := List.exists_cons_of_ne_nil hne
    exact dropWhile_of_head c _ (hcut c (by simp))
  rw [h1, List.reverse_append, List.reverse_singleton, List.singleton_append,
    List.dropWhile_cons_of_pos h125]
  have hrne : name.reverse ≠ [] := by simpa using hne
  obtain ⟨c, r, hcr⟩ := List.exists_cons_of_ne_nil hrne
  have hcmem : c ∈ name := by
    have : c ∈ name.reverse := by simp [hcr]
    simpa using this
  rw [hcr, dropWhile_of_head c r (hcut c hcmem), ← hcr, List.reverse_reverse]

theorem replaceAllFunc_id (f : GoString → GoString) (s : GoString) :
    ∀ k, (∀ m ∈ varMatches k s, f m = m) → replaceAllFunc f k s = s.drop k := by
  induction s with
  | nil => intro k _; simp [replaceAllFunc]
  | cons c r ih =>
    intro k h
    cases k with
    | succ k =>
      rw [replaceAllFunc, List.drop_succ_cons]
      exact ih k (by simpa [varMatches] using h)
    | zero =>
      rw [replaceAllFunc, List.drop_zero]
      rw [varMatches] at h
      cases hm : varMatchLen (c :: r) with
      | zero =>
        rw [hm] at h
        simp only [ih 0 h, List.drop_zero]
      | succ n =>
        rw [hm] at h
        simp only
        rw [h _ (List.mem_cons_self _ _), ih n (fun m hmem => h m (List.mem_cons_of_mem _ hmem))]
        rw [List.take_succ_cons, List.cons_append, List.take_append_drop]

/-- C1: a braced reference `${NAME}` whose name the scope maps to the string
    `v`, between a prefix and a suffix without `$`, is replaced by `v` and the
    text around it is kept, whatever the process environment defines. -/
theorem substituteVariables_braced (getenv : Environ) (scope : Contents)
    (name v pre suf : GoString) (hname : isIdentifier name = true)
    (hscope : mapGet scope name = some (.str v)) (hpre : 36 ∉ pre) (hsuf : 36 ∉ suf) :
    substituteVariables getenv (pre ++ bytes "$\x7b" ++ name ++ bytes "\x7d" ++ suf) scope
      = pre ++ v ++ suf := by
  have hb1 : bytes "$\x7b" = [36, 123] := by decide
  have hb2 : bytes "\x7d" = [125] := by decide
  have hshape : pre ++ bytes "$\x7b" ++ name ++ bytes "\x7d" ++ suf
      = pre ++ (36 :: 123 :: (name ++ 125 :: suf)) := by
    rw [hb1, hb2]; simp
  have htake : (36 :: 123 :: (name ++ 125 :: suf)).take (name.length + 2 + 1)
      = 36 :: 123 :: (name ++ [125]) := by
    have : name ++ 125 :: suf = (name ++ [125]) ++ suf := by simp
    rw [this]
    simp [List.take_append_eq_append_take]
  have hskip : replaceAllFunc (substituteMatch getenv scope) (name.length + 2)
      (123 :: (name ++ 125 :: suf)) = suf := by
    have e : 123 :: (name ++ 125 :: suf) = (123 :: (name ++ [125])) ++ suf := by simp
    have l : (123 :: (name ++ [125])).length = name.length + 2 := by simp
    rw [e, ← l, replaceAllFunc_skip, replaceAllFunc_copy_all _ _ hsuf]
  unfold substituteVariables
  rw [hshape, replaceAllFunc_copy _ _ _ hpre, replaceAllFunc, varMatchLen_braced name suf hname]
  simp only
  rw [htake, hskip]
  simp only [substituteMatch, Trim_braced name hname, hscope, Sprint, List.append_assoc]

theorem substituteVariables_braced_witness :
    substituteVariables (fun _ => some (bytes "from_environment"))
        (bytes "URL is " ++ bytes "$\x7b" ++ bytes "TEST_VAR" ++ bytes "\x7d" ++ bytes "/some/path")
        [(bytes "TEST_VAR", .str (bytes "substituted_value"))]
      = bytes "URL is " ++ bytes "substituted_value" ++ bytes "/some/path" :=
  substituteVariables_braced _ _ (bytes "TEST_VAR") (bytes "substituted_value") (bytes "URL is ")
    (bytes "/some/path") (by decide) (by decide) (by decide) (by decide)

/-- C2: when no name referenced in `raw` is a key of the scope or defined in
    the environment, substitution returns `raw`; with an empty scope and an
    environment that defines nothing it is the identity on every string. -/
theorem substituteVariables_unresolved (getenv : Environ) (scope : Contents) (raw : GoString)
    (h : ∀ n ∈ referencedNames raw, mapGet scope n = none ∧ getenv n = none) :
    substituteVariables getenv raw scope = raw ∧
      substituteVariables (fun _ => none) raw [] = raw := by
  constructor
  · unfold substituteVariables
    rw [replaceAllFunc_id _ _ 0, List.drop_zero]
    intro m hm
    have := h (Trim m (bytes "$\x7b\x7d")) (List.mem_map_of_mem _ hm)
    simp [substituteMatch, this.1, this.2]
  · unfold substituteVariables
    rw [replaceAllFunc_id _ _ 0, List.drop_zero]
    intro m _
    simp [substituteMatch, mapGet]

theorem substituteVariables_unresolved_witness :
    substituteVariables (fun n => if n = bytes "HOME" then some (bytes "/root") else none)
        (bytes "$\x7bUNKNOWN_X\x7d and $OTHER") [(bytes "TEST_VAR", .str (bytes "v"))]
      = bytes "$\x7bUNKNOWN_X\x7d and $OTHER" ∧
    substituteVariables (fun _ => none) (bytes "$\x7bUNKNOWN_X\x7d and $OTHER") []
      = bytes "$\x7bUNKNOWN_X\x7d and $OTHER" :=
  substituteVariables_unresolved _ _ _ (by decide)

theorem takeWhile_name_stop (r suf : GoString) (h : ∀ x ∈ r, isNameChar x = true)
    (hsuf : ∀ c ∈ suf.head?, isNameChar c = false) :
    (r ++ suf).takeWhile isNameChar = r := by
  cases suf with
  | nil => simpa using h
  | cons c s => exact takeWhile_name r s c h (hsuf c (by simp))

theorem varMatchLen_unbraced (name suf : GoString) (h : isIdentifier name = true)
    (hsuf : ∀ c ∈ suf.head?, isNameChar c = false ∧ c ≠ 125) :
    varMatchLen (36 :: (name ++ suf)) = name.length + 1 := by
  cases name with
  | nil => simp [isIdentifier] at h
  | cons c r =>
    have hall := isIdentifier_all h
    simp only [isIdentifier, Bool.and_eq_true] at h
    have hr : ∀ x ∈ r, isNameChar x = true := fun x hx => hall x (List.mem_cons_of_mem _ hx)
    have hc : c ≠ 123 := by
      intro e
      rw [e] at h
      exact absurd h.1 (by decide)
    have hclose : ((suf.head? == some 125) = false) := by
      cases suf with
      | nil => rfl
      | cons x s =>
        have := (hsuf x (by simp)).2
        simpa using this
    simp only [varMatchLen, List.cons_append, List.head?_cons, Option.some.injEq, hc, beq_iff_eq,
      if_false, List.drop_zero, h.1, if_true,
      takeWhile_name_stop r suf hr (fun x hx => (hsuf x hx).1), List.drop_left, hclose,
      Bool.false_eq_true, List.length_cons]
    omega

theorem Trim_unbraced (name : GoString) (h : isIdentifier name = true) :
    Trim (36 :: name) (bytes "$\x7b\x7d") = name := by
  have hall := isIdentifier_all h
  have hne : name ≠ [] := by
    intro e; subst e; simp [isIdentifier] at h
  have hcut : ∀ c ∈ name, (bytes "$\x7b\x7d").contains c = false :=
    fun c hc => nameChar_not_cut c (hall c hc)
  have h36 : (bytes "$\x7b\x7d").contains 36 = true := by decide
  unfold Trim
  have h1 : (36 :: name).dropWhile (fun c => (bytes "$\x7b\x7d").contains c) = name := by
    rw [List.dropWhile_cons_of_pos h36]
    obtain ⟨c, r, rfl⟩ := List.exists_cons_of_ne_nil hne
    exact dropWhile_of_head c _ (hcut c (by simp))
  rw [h1]
  have hrne : name.reverse ≠ [] := by simpa using hne
  obtain ⟨c, r, hcr⟩ := List.exists_cons_of_ne_nil hrne
  have hcmem : c ∈ name := by
    have : c ∈ name.reverse := by simp [hcr]
    simpa using this
  rw [hcr, dropWhile_of_head c r (hcut c hcmem), ← hcr, List.reverse_reverse]

theorem substituteVariables_unbraced (getenv : Environ) (scope : Contents)
    (name v pre suf : GoString) (hname : isIdentifier name = true)
    (hscope : mapGet scope name = some (.str v)) (hpre : 36 ∉ pre) (hsuf : 36 ∉ suf)
    (hnext : ∀ c ∈ suf.head?, isNameChar c = false ∧ c ≠ 125) :
    substituteVariables getenv (pre ++ bytes "$" ++ name ++ suf) scope = pre ++ v ++ suf := by
  have hb : bytes "$" = [36] := by decide
  have hshape : pre ++ bytes "$" ++ name ++ suf = pre ++ (36 :: (name ++ suf)) := by
    rw [hb]; simp
  have htake : (36 :: (name ++ suf)).take (name.length + 1) = 36 :: name := by
    simp [List.take_append_eq_append_take]
  unfold substituteVariables
  rw [hshape, replaceAllFunc_copy _ _ _ hpre, replaceAllFunc, varMatchLen_unbraced name suf hname hnext]
  simp only
  rw [htake, replaceAllFunc_skip, replaceAllFunc_copy_all _ _ hsuf]
  simp only [substituteMatch, Trim_unbraced name hname, hscope, Sprint, List.append_assoc]

/-- C18: the code at the failing input, the usage the comment above
    `substituteVariables` documents.  The closing brace after `$TEST_VAR` is
    taken into the match and lost, while the opening brace before it stays;
    a reference followed by `/` is replaced as claimed. -/
theorem substituteVariables_unbraced_loses_brace :
    substituteVariables emptyEnviron (bytes "\x7b$TEST_VAR\x7d/somehost.com")
        [(bytes "TEST_VAR", .str (bytes "example"))]
      = bytes "\x7bexample/somehost.com" ∧
    substituteVariables emptyEnviron (bytes "$TEST_VAR/somehost.com")
        [(bytes "TEST_VAR", .str (bytes "example"))]
      = bytes "example/somehost.com" := by
  decide

/-! ## Facts about the string functions -/

theorem trimLeftN_length_le (n : Nat) : ∀ s : GoString, (trimLeftN n s).length ≤ s.length := by
  induction n with
  | zero => intro s; simp [trimLeftN]
  | succ n ih =>
    intro s
    rw [trimLeftN]
    split
    · exact Nat.le_refl _
    · rename_i w _
      exact Nat.le_trans (ih _) (by simp)

theorem trimRevN_length_le (n : Nat) : ∀ s : GoString, (trimRevN n s).length ≤ s.length := by
  induction n with
  | zero => intro s; simp [trimRevN]
  | succ n ih =>
    intro s
    rw [trimRevN]
    split
    · exact Nat.le_refl _
    · rename_i w _
      exact Nat.le_trans (ih _) (by simp)

theorem TrimSpace_length_le (s : GoString) : (TrimSpace s).length ≤ s.length := by
  unfold TrimSpace TrimRightSpace TrimLeftSpace
  rw [List.length_reverse]
  refine Nat.le_trans (trimRevN_length_le _ _) ?_
  rw [List.length_reverse]
  exact trimLeftN_length_le _ _

theorem length_ge_two_of_delimited (t : GoString) (a b : Nat) (hab : a ≠ b)
    (hp : HasPrefix t [a] = true) (hs : HasSuffix t [b] = true) : 2 ≤ t.length := by
  match t, hp, hs with
  | [], hp, _ => simp [HasPrefix] at hp
  | [c], hp, hs =>
    simp [HasPrefix] at hp
    simp [HasSuffix] at hs
    omega
  | _ :: _ :: _, _, _ => simp

theorem goSlice_inner_isSome (s : GoString) (h : 2 ≤ s.length) :
    ∃ inner, goSlice s 1 ((s.length : Int) - 1) = some inner := by
  unfold goSlice
  rw [if_pos]
  · exact ⟨_, rfl⟩
  · omega

theorem splitElements_of_delimited (s : GoString) (a b : Nat) (hab : a ≠ b)
    (hp : HasPrefix (TrimSpace s) [a] = true) (hs : HasSuffix (TrimSpace s) [b] = true) :
    ∃ l, splitElements s = some l := by
  have h2 : 2 ≤ s.length :=
    Nat.le_trans (length_ge_two_of_delimited _ a b hab hp hs) (TrimSpace_length_le s)
  obtain ⟨inner, hin⟩ := goSlice_inner_isSome s h2
  exact ⟨(Split (TrimSpace inner) 44).map TrimSpace, by simp [splitElements, hin]⟩

theorem splitElements_of_isList (s : GoString) (h : isList (.str s) = true) :
    ∃ l, splitElements s = some l := by
  simp only [isList, Sprint, Bool.and_eq_true] at h
  exact splitElements_of_delimited s 91 93 (by decide) h.1 h.2

theorem splitElements_of_isTuple (s : GoString) (h : isTuple (.str s) = true) :
    ∃ l, splitElements s = some l := by
  simp only [isTuple, Sprint, Bool.and_eq_true] at h
  exact splitElements_of_delimited s 40 41 (by decide) h.1 h.2

theorem Atoi_in_range (s : GoString) (hs : isInteger (.str s) = true)
    (hlo : -(2 ^ 63 : Int) ≤ intValueOf s) (hhi : intValueOf s < 2 ^ 63) :
    Atoi s = (intValueOf s, none) := by
  simp only [isInteger, Sprint, matchInteger, Bool.and_eq_true, Bool.not_eq_true'] at hs
  have h63 : (2 : Int) ^ 63 = 9223372036854775808 := by norm_num
  have h63n : (2 : Nat) ^ 63 = 9223372036854775808 := by norm_num
  unfold Atoi intValueOf at *
  simp only [hs.1, hs.2, Bool.not_true, Bool.or_self, Bool.false_eq_true, if_false]
  by_cases hneg : (s.head? == some 45) = true
  · simp only [hneg, if_true] at hlo hhi ⊢
    rw [if_neg]
    rw [h63] at hlo
    rw [h63n]
    omega
  · simp only [hneg, Bool.false_eq_true, if_false] at hlo hhi ⊢
    rw [if_neg]
    rw [h63] at hhi
    rw [h63n]
    omega

theorem spaceWidth_ascii (a : Nat) (r : GoString) (h1 : 32 < a) (h2 : a < 128) :
    spaceWidth (a :: r) = 0 := by
  unfold spaceWidth
  simp only
  rw [if_neg (by omega)]
  cases r with
  | nil => rfl
  | cons b r2 =>
    simp only
    rw [if_neg (by omega)]
    cases r2 with
    | nil => rfl
    | cons c r3 =>
      simp only
      rw [if_neg (by omega), if_neg (by omega), if_neg (by omega), if_neg (by omega)]

theorem spaceWidthRev_ascii (c : Nat) (r : GoString) (h1 : 32 < c) (h2 : c < 128) :
    spaceWidthRev (c :: r) = 0 := by
  unfold spaceWidthRev
  simp only
  rw [if_neg (by omega)]
  cases r with
  | nil => rfl
  | cons b r2 =>
    simp only
    rw [if_neg (by omega)]
    cases r2 with
    | nil => rfl
    | cons a r3 =>
      simp only
      rw [if_neg (by omega), if_neg (by omega), if_neg (by omega), if_neg (by omega)]

theorem trimLeftN_of_width_zero (n : Nat) (s : GoString) (h : spaceWidth s = 0) :
    trimLeftN n s = s := by
  cases n with
  | zero => rfl
  | succ n => rw [trimLeftN, h]

theorem trimRevN_of_width_zero (n : Nat) (s : GoString) (h : spaceWidthRev s = 0) :
    trimRevN n s = s := by
  cases n with
  | zero => rfl
  | succ n => rw [trimRevN, h]

theorem TrimSpace_of_plain_ends (a z : Nat) (mid : GoString) (ha1 : 32 < a) (ha2 : a < 128)
    (hz1 : 32 < z) (hz2 : z < 128) : TrimSpace (a :: (mid ++ [z])) = a :: (mid ++ [z]) := by
  unfold TrimSpace TrimLeftSpace TrimRightSpace
  rw [trimLeftN_of_width_zero _ _ (spaceWidth_ascii a _ ha1 ha2)]
  have hrev : (a :: (mid ++ [z])).reverse = z :: (mid.reverse ++ [a]) := by simp
  rw [hrev, trimRevN_of_width_zero _ _ (spaceWidthRev_ascii z _ hz1 hz2), ← hrev,
    List.reverse_reverse]

theorem convertInputToType_plain (lib : Lib) (v : GoString) (h : isOpaque v = true) :
    convertInputToType lib v = some (.str v, none) := by
  simp only [isOpaque, Bool.and_eq_true, Bool.not_eq_true'] at h
  obtain ⟨⟨⟨⟨⟨⟨h1, h2⟩, h3⟩, h4⟩, h5⟩, h6⟩, h7⟩ := h
  simp [convertInputToType, h1, h2, h3, h4, h5, h6, h7]

theorem GetValue_infer (lib : Lib) (env : EnvData) (which : GoString) (d : Any)
    (herr : env.EnvError = none) :
    GetValue lib env which [] d =
      match convertInputToType lib (Sprint (lookupOr env which d)) with
      | none => none
      | some (_, some err) => some (.nil, some (.convertValue err))
      | some (convertedValue, none) => some (convertedValue, none) := by
  simp [GetValue, herr]

/-- C3: an opaque string comes back unchanged and without error from
    `GetValue` with an empty kind, both as the value stored under the key and
    as the default of an absent key. -/
theorem GetValue_plain_string (lib : Lib) (env : EnvData) (key v : GoString) (d : Any)
    (hv : isOpaque v = true) (herr : env.EnvError = none) :
    (mapGet env.EnvContents key = some (.str v) →
        GetValue lib env key [] d = some (.str v, none)) ∧
    (mapGet env.EnvContents key = none →
        GetValue lib env key [] (.str v) = some (.str v, none)) := by
  constructor
  · intro hget
    rw [GetValue_infer lib env key d herr]
    simp [lookupOr, hget, Sprint, convertInputToType_plain lib v hv]
  · intro hget
    rw [GetValue_infer lib env key _ herr]
    simp [lookupOr, hget, Sprint, convertInputToType_plain lib v hv]

theorem GetValue_plain_string_witness :
    GetValue exampleLib (storeOf [(bytes "EXISTING_VAR", .str (bytes "some_value"))])
        (bytes "EXISTING_VAR") [] .nil = some (.str (bytes "some_value"), none) ∧
    GetValue exampleLib (storeOf []) (bytes "NON_EXISTING_VAR") [] (.str (bytes "default_value"))
        = some (.str (bytes "default_value"), none) :=
  ⟨(GetValue_plain_string exampleLib (storeOf [(bytes "EXISTING_VAR", .str (bytes "some_value"))])
      (bytes "EXISTING_VAR") (bytes "some_value") .nil (by decide) rfl).1 (by decide),
   (GetValue_plain_string exampleLib (storeOf []) (bytes "NON_EXISTING_VAR") (bytes "default_value")
      .nil (by decide) rfl).2 (by decide)⟩

theorem bytes_str : bytes "str" = [115, 116, 114] := by decide

theorem bytes_string : bytes "string" = [115, 116, 114, 105, 110, 103] := by decide

theorem bytes_bool : bytes "bool" = [98, 111, 111, 108] := by decide

theorem bytes_boolean : bytes "boolean" = [98, 111, 111, 108, 101, 97, 110] := by decide

theorem bytes_float : bytes "float" = [102, 108, 111, 97, 116] := by decide

theorem bytes_int : bytes "int" = [105, 110, 116] := by decide

theorem bytes_integer : bytes "integer" = [105, 110, 116, 101, 103, 101, 114] := by decide

theorem bytes_list : bytes "list" = [108, 105, 115, 116] := by decide

theorem bytes_array : bytes "array" = [97, 114, 114, 97, 121] := by decide

theorem bytes_tuple : bytes "tuple" = [116, 117, 112, 108, 101] := by decide

theorem bytes_dict : bytes "dict" = [100, 105, 99, 116] := by decide

theorem bytes_map : bytes "map" = [109, 97, 112] := by decide

theorem bytes_json : bytes "json" = [106, 115, 111, 110] := by decide

theorem isAllowedType_cases (kind : GoString) (h : isAllowedType kind = true) :
    kind = bytes "str" ∨ kind = bytes "string" ∨ kind = bytes "bool" ∨ kind = bytes "boolean" ∨
    kind = bytes "float" ∨ kind = bytes "int" ∨ kind = bytes "integer" ∨
    kind = bytes "list" ∨ kind = bytes "array" ∨ kind = bytes "tuple" ∨
    kind = bytes "dict" ∨ kind = bytes "map" ∨ kind = bytes "json" := by
  simpa [isAllowedType] using h

theorem ToLower_allowed (lib : Lib) (kind : GoString) (h : isAllowedType kind = true) :
    ToLower lib kind = kind := by
  rcases isAllowedType_cases kind h with h | h | h | h | h | h | h | h | h | h | h | h | h <;>
    subst h <;> rfl

theorem GetValue_strict (lib : Lib) (env : EnvData) (which kind : GoString) (d : Any)
    (herr : env.EnvError = none) (hk : isAllowedType kind = true) :
    GetValue lib env which kind d =
      match convertToSpecificType lib (Sprint (lookupOr env which d)) kind with
      | none => none
      | some (_, some err) => some (.nil, some (.convertToType kind err))
      | some (convertedValue, none) => some (convertedValue, none) := by
  have hne : kind.isEmpty = false := by
    cases kind with
    | nil => revert hk; decide
    | cons c r => rfl
  simp [GetValue, herr, hk, hne]

theorem convertToSpecificType_mismatch (lib : Lib) (s kind : GoString)
    (hk : isAllowedType kind = true) (hs1 : kind ≠ bytes "str") (hs2 : kind ≠ bytes "string")
    (hshape : hasShapeOf kind s = false) :
    convertToSpecificType lib s kind = some (.nil, some (.unableToConvert s kind)) := by
  have hlow := ToLower_allowed lib kind hk
  unfold convertToSpecificType
  simp only [hlow]
  rcases isAllowedType_cases kind hk with h | h | h | h | h | h | h | h | h | h | h | h | h
  · exact absurd h hs1
  · exact absurd h hs2
  all_goals
    subst h
    simp only [hasShapeOf, bytes_str, bytes_string, bytes_bool, bytes_boolean, bytes_float, bytes_int, bytes_integer, bytes_list, bytes_array, bytes_tuple, bytes_dict, bytes_map, bytes_json] at hshape hk ⊢
    simp at hshape
    simp [hk, hshape]


/-- C4: strict coercion fails on a shape mismatch: with a recognized kind
    other than `str` and `string`, `GetValue` on a key storing a string that
    has not the shape of that kind returns a nil value and an error. -/
theorem GetValue_strict_mismatch (lib : Lib) (env : EnvData) (key kind s : GoString) (d : Any)
    (herr : env.EnvError = none) (hget : mapGet env.EnvContents key = some (.str s))
    (hk : isAllowedType kind = true) (hs1 : kind ≠ bytes "str") (hs2 : kind ≠ bytes "string")
    (hshape : hasShapeOf kind s = false) :
    GetValue lib env key kind d
      = some (.nil, some (.convertToType kind (.unableToConvert s kind))) := by
  rw [GetValue_strict lib env key kind d herr hk]
  simp [lookupOr, hget, Sprint, convertToSpecificType_mismatch lib s kind hk hs1 hs2 hshape]

theorem GetValue_strict_mismatch_witness :
    GetValue exampleLib (storeOf [(bytes "INVALID_VAR", .str (bytes "not_an_int"))])
        (bytes "INVALID_VAR") (bytes "int") .nil
      = some (.nil, some (.convertToType (bytes "int")
          (.unableToConvert (bytes "not_an_int") (bytes "int")))) :=
  GetValue_strict_mismatch exampleLib _ (bytes "INVALID_VAR") (bytes "int") (bytes "not_an_int")
    .nil rfl (by decide) (by decide) (by decide) (by decide) (by decide)

/-- C7, as stated, fails: with the kind `foo`, which is not an allowed name,
    `GetValue` returns the stored string and no error. -/
theorem GetValue_unknown_kind_counterexample :
    isAllowedType (bytes "foo") = false ∧
    GetValue exampleLib (storeOf [(bytes "K", .str (bytes "some_value"))])
        (bytes "K") (bytes "foo") .nil = some (.str (bytes "some_value"), none) := by
  decide

/-- C7, amended: a requested kind that is not an allowed name is ignored by
    `GetValue`, which returns what it returns for the empty kind; the
    invalid-type-name error belongs to `convertToSpecificType`, for a kind
    whose lower-case form is not an allowed name. -/
theorem GetValue_unknown_kind (lib : Lib) (env : EnvData) (key kind what : GoString) (d : Any)
    (hk : isAllowedType kind = false) :
    GetValue lib env key kind d = GetValue lib env key [] d ∧
    (isAllowedType (ToLower lib kind) = false →
      convertToSpecificType lib what kind = some (.nil, some (.invalidType what kind))) := by
  constructor
  · cases h : env.EnvError <;> simp [GetValue, h, hk]
  · intro hl
    simp [convertToSpecificType, hl]

theorem GetValue_unknown_kind_witness :
    GetValue exampleLib (storeOf [(bytes "K", .str (bytes "42"))]) (bytes "K") (bytes "number") .nil
      = GetValue exampleLib (storeOf [(bytes "K", .str (bytes "42"))]) (bytes "K") [] .nil ∧
    (isAllowedType (ToLower exampleLib (bytes "number")) = false →
      convertToSpecificType exampleLib (bytes "42") (bytes "number")
        = some (.nil, some (.invalidType (bytes "42") (bytes "number")))) :=
  GetValue_unknown_kind exampleLib _ (bytes "K") (bytes "number") (bytes "42") .nil (by decide)

/-- C9: the code at the failing input.  Inference turns the stored `false`
    into the boolean true, while strict coercion with kind `bool` gives the
    boolean false. -/
theorem GetValue_infer_false_is_true :
    GetValue exampleLib (storeOf [(bytes "FLAG", .str (bytes "false"))]) (bytes "FLAG") [] .nil
      = some (.bool true, none) ∧
    GetValue exampleLib (storeOf [(bytes "FLAG", .str (bytes "false"))]) (bytes "FLAG")
        (bytes "bool") .nil = some (.bool false, none) := by
  decide

/-- C10: the code at the failing input.  A list text with white space around
    it loses its first and last byte, not its brackets. -/
theorem GetValue_infer_padded_list :
    isList (.str (bytes " [a, b] ")) = true ∧
    GetValue exampleLib (storeOf [(bytes "L", .str (bytes " [a, b] "))]) (bytes "L") [] .nil
      = some (.list [bytes "[a", bytes "b]"], none) ∧
    GetValue exampleLib (storeOf [(bytes "L", .str (bytes "[a, b, c]"))]) (bytes "L") [] .nil
      = some (.list [bytes "a", bytes "b", bytes "c"], none) := by
  decide

theorem b64_char_roundtrip (v : Nat) (hv : v < 64) : b64DecodeChar (b64EncodeChar v) = some v := by
  interval_cases v <;> rfl

theorem b64EncodeChar_alphabet (v : Nat) :
    b64EncodeChar v ≠ 10 ∧ b64EncodeChar v ≠ 13 ∧ b64EncodeChar v ≠ 40 ∧
      b64EncodeChar v ≠ 41 ∧ b64EncodeChar v ≠ 61 := by
  unfold b64EncodeChar
  split_ifs <;> omega

theorem b64DecodeChar_pad : b64DecodeChar 61 = none := by decide

theorem b64DecodeLoop_char (c v : Nat) (rest dbuf out : List Nat)
    (hc : b64DecodeChar c = some v) (hlen : dbuf.length ≠ 3) :
    b64DecodeLoop (c :: rest) dbuf out = b64DecodeLoop rest (dbuf ++ [v]) out := by
  rw [b64DecodeLoop, hc]
  simp [hlen]

theorem b64DecodeLoop_last (c v : Nat) (rest dbuf out : List Nat)
    (hc : b64DecodeChar c = some v) (hlen : dbuf.length = 3) :
    b64DecodeLoop (c :: rest) dbuf out
      = b64DecodeLoop rest [] (out ++ b64Quantum (dbuf ++ [v])) := by
  rw [b64DecodeLoop, hc]
  simp [hlen]

theorem b64DecodeLoop_pad2 (s1 s2 : Nat) (out : List Nat) :
    b64DecodeLoop [61, 61] [s1, s2] out = some (out ++ b64Quantum [s1, s2]) := by
  simp [b64DecodeLoop, b64DecodeChar_pad, b64SkipNewlines]

theorem b64DecodeLoop_pad1 (s1 s2 s3 : Nat) (out : List Nat) :
    b64DecodeLoop [61] [s1, s2, s3] out = some (out ++ b64Quantum [s1, s2, s3]) := by
  simp [b64DecodeLoop, b64DecodeChar_pad, b64SkipNewlines]

theorem b64Quantum_three (a b c : Nat) (ha : a < 256) (hb : b < 256) (hc : c < 256) :
    b64Quantum [(a * 65536 + b * 256 + c) / 262144 % 64, (a * 65536 + b * 256 + c) / 4096 % 64,
      (a * 65536 + b * 256 + c) / 64 % 64, (a * 65536 + b * 256 + c) % 64] = [a, b, c] := by
  simp only [b64Quantum, List.getD_cons_zero, List.getD_cons_succ, List.length_cons,
    List.length_nil]
  simp
  omega

theorem b64Quantum_two (a b : Nat) (ha : a < 256) (hb : b < 256) :
    b64Quantum [(a * 65536 + b * 256) / 262144 % 64, (a * 65536 + b * 256) / 4096 % 64,
      (a * 65536 + b * 256) / 64 % 64] = [a, b] := by
  simp only [b64Quantum, List.getD_cons_zero, List.getD_cons_succ, List.length_cons,
    List.length_nil]
  simp
  omega

theorem b64Quantum_one (a : Nat) (ha : a < 256) :
    b64Quantum [(a * 65536) / 262144 % 64, (a * 65536) / 4096 % 64] = [a] := by
  simp only [b64Quantum, List.getD_cons_zero, List.getD_cons_succ, List.length_cons,
    List.length_nil]
  simp
  omega

theorem b64_roundtrip_loop (p : GoString) :
    IsBytes p → ∀ out, b64DecodeLoop (b64Encode p) [] out = some (out ++ p) := by
  induction p using b64Encode.induct with
  | case1 => intro _ out; simp [b64Encode, b64DecodeLoop]
  | case2 a =>
    intro hp out
    have ha : a < 256 := hp a (by simp)
    simp only [b64Encode]
    rw [b64DecodeLoop_char _ _ _ _ _ (b64_char_roundtrip _ (Nat.mod_lt _ (by norm_num))) (by simp),
      b64DecodeLoop_char _ _ _ _ _ (b64_char_roundtrip _ (Nat.mod_lt _ (by norm_num))) (by simp)]
    simp only [List.nil_append, List.singleton_append]
    rw [b64DecodeLoop_pad2, b64Quantum_one a ha]
  | case3 a b =>
    intro hp out
    have ha : a < 256 := hp a (by simp)
    have hb : b < 256 := hp b (by simp)
    simp only [b64Encode]
    rw [b64DecodeLoop_char _ _ _ _ _ (b64_char_roundtrip _ (Nat.mod_lt _ (by norm_num))) (by simp),
      b64DecodeLoop_char _ _ _ _ _ (b64_char_roundtrip _ (Nat.mod_lt _ (by norm_num))) (by simp),
      b64DecodeLoop_char _ _ _ _ _ (b64_char_roundtrip _ (Nat.mod_lt _ (by norm_num))) (by simp)]
    simp only [List.nil_append, List.singleton_append, List.cons_append]
    rw [b64DecodeLoop_pad1, b64Quantum_two a b ha hb]
  | case4 a b c r ih =>
    intro hp out
    have ha : a < 256 := hp a (by simp)
    have hb : b < 256 := hp b (by simp)
    have hc : c < 256 := hp c (by simp)
    have hr : IsBytes r := fun x hx => hp x (by simp [hx])
    simp only [b64Encode]
    rw [b64DecodeLoop_char _ _ _ _ _ (b64_char_roundtrip _ (Nat.mod_lt _ (by norm_num))) (by simp),
      b64DecodeLoop_char _ _ _ _ _ (b64_char_roundtrip _ (Nat.mod_lt _ (by norm_num))) (by simp),
      b64DecodeLoop_char _ _ _ _ _ (b64_char_roundtrip _ (Nat.mod_lt _ (by norm_num))) (by simp),
      b64DecodeLoop_last _ _ _ _ _ (b64_char_roundtrip _ (Nat.mod_lt _ (by norm_num))) (by simp)]
    simp only [List.nil_append, List.singleton_append, List.cons_append]
    rw [b64Quantum_three a b c ha hb hc, ih hr]
    simp

theorem b64_roundtrip (p : GoString) (hp : IsBytes p) : b64DecodeString (b64Encode p) = some p := by
  simpa [b64DecodeString] using b64_roundtrip_loop p hp []

theorem b64Encode_alphabet (p : GoString) :
    ∀ c ∈ b64Encode p, c ≠ 40 ∧ c ≠ 41 := by
  induction p using b64Encode.induct with
  | case1 => simp [b64Encode]
  | case2 a =>
    intro c hc
    simp only [b64Encode, List.mem_cons, List.mem_singleton, List.not_mem_nil, or_false] at hc
    rcases hc with h | h | h | h <;> subst h <;>
      first
        | exact ⟨(b64EncodeChar_alphabet _).2.2.1, (b64EncodeChar_alphabet _).2.2.2.1⟩
        | decide
  | case3 a b =>
    intro c hc
    simp only [b64Encode, List.mem_cons, List.mem_singleton, List.not_mem_nil, or_false] at hc
    rcases hc with h | h | h | h <;> subst h <;>
      first
        | exact ⟨(b64EncodeChar_alphabet _).2.2.1, (b64EncodeChar_alphabet _).2.2.2.1⟩
        | decide
  | case4 a b c r ih =>
    intro x hx
    simp only [b64Encode, List.mem_cons] at hx
    rcases hx with h | h | h | h | h
    · subst h; exact ⟨(b64EncodeChar_alphabet _).2.2.1, (b64EncodeChar_alphabet _).2.2.2.1⟩
    · subst h; exact ⟨(b64EncodeChar_alphabet _).2.2.1, (b64EncodeChar_alphabet _).2.2.2.1⟩
    · subst h; exact ⟨(b64EncodeChar_alphabet _).2.2.1, (b64EncodeChar_alphabet _).2.2.2.1⟩
    · subst h; exact ⟨(b64EncodeChar_alphabet _).2.2.1, (b64EncodeChar_alphabet _).2.2.2.1⟩
    · exact ih x h

theorem bytes_ENC : bytes "ENC(" = [69, 78, 67, 40] := by decide

theorem bytes_enc : bytes "enc(" = [101, 110, 99, 40] := by decide

theorem bytes_close : bytes ")" = [41] := by decide

theorem HasPrefix_append (pre s : GoString) : HasPrefix (pre ++ s) pre = true := by
  simp [HasPrefix]

theorem HasSuffix_append (s suf : GoString) : HasSuffix (s ++ suf) suf = true := by
  simp [HasSuffix]

theorem TrimPrefix_append (pre s : GoString) : TrimPrefix (pre ++ s) pre = s := by
  simp [TrimPrefix, HasPrefix_append]

theorem TrimSuffix_append (s suf : GoString) : TrimSuffix (s ++ suf) suf = s := by
  simp [TrimSuffix, HasSuffix_append]

theorem TrimPrefix_of_not (s pre : GoString) (h : HasPrefix s pre = false) :
    TrimPrefix s pre = s := by
  simp [TrimPrefix, h]

theorem not_HasPrefix_enc (x : GoString) (h : ∀ c ∈ x, c ≠ 40 ∧ c ≠ 41) :
    HasPrefix (x ++ [41]) [101, 110, 99, 40] = false := by
  rw [Bool.eq_false_iff]
  intro hp
  have hp4 : (x ++ [41]).take 4 = [101, 110, 99, 40] := by simpa [HasPrefix] using hp
  have hmem : (40 : Nat) ∈ (x ++ [41]).take 4 := by rw [hp4]; simp
  have hmem2 := List.mem_of_mem_take hmem
  rcases List.mem_append.mp hmem2 with h1 | h1
  · exact (h 40 h1).1 rfl
  · simp at h1

theorem decryptValue_ENC (lib : Lib) (p : GoString) (hp : IsBytes p) :
    decryptValue lib (bytes "ENC(" ++ b64Encode p ++ bytes ")") [] = (p, none) := by
  simp only [decryptValue]
  rw [List.append_assoc, TrimPrefix_append, bytes_close, bytes_enc,
    TrimPrefix_of_not _ _ (not_HasPrefix_enc _ (b64Encode_alphabet p)), TrimSuffix_append]
  simp [b64_roundtrip p hp]

theorem decryptValue_enc (lib : Lib) (p : GoString) (hp : IsBytes p) :
    decryptValue lib (bytes "enc(" ++ b64Encode p ++ bytes ")") [] = (p, none) := by
  simp only [decryptValue]
  have h1 : HasPrefix (bytes "enc(" ++ b64Encode p ++ bytes ")") (bytes "ENC(") = false := by
    rw [bytes_enc, bytes_ENC]
    simp [HasPrefix]
  rw [TrimPrefix_of_not _ _ h1, List.append_assoc, TrimPrefix_append, TrimSuffix_append]
  simp [b64_roundtrip p hp]

theorem isHashed_ENC (x : GoString) : isHashed (.str (bytes "ENC(" ++ x ++ bytes ")")) = true := by
  have e : bytes "ENC(" ++ x ++ bytes ")" = 69 :: (([78, 67, 40] ++ x) ++ [41]) := by
    rw [bytes_ENC, bytes_close]; simp
  simp only [isHashed, Sprint]
  rw [e, TrimSpace_of_plain_ends 69 41 _ (by decide) (by decide) (by decide) (by decide), ← e,
    List.append_assoc, HasPrefix_append, ← List.append_assoc, HasSuffix_append]
  simp

theorem isHashed_enc (x : GoString) : isHashed (.str (bytes "enc(" ++ x ++ bytes ")")) = true := by
  have e : bytes "enc(" ++ x ++ bytes ")" = 101 :: (([110, 99, 40] ++ x) ++ [41]) := by
    rw [bytes_enc, bytes_close]; simp
  simp only [isHashed, Sprint]
  rw [e, TrimSpace_of_plain_ends 101 41 _ (by decide) (by decide) (by decide) (by decide), ← e,
    List.append_assoc, HasPrefix_append, ← List.append_assoc, HasSuffix_append]
  simp

theorem GetEncryptedValue_infer (lib : Lib) (env : EnvData) (key str p : GoString) (d : Any)
    (herr : env.EnvError = none) (hget : mapGet env.EnvContents key = some (.str str))
    (hh : isHashed (.str str) = true) (hdec : decryptValue lib str [] = (p, none))
    (hp : isOpaque p = true) :
    GetEncryptedValue lib env key [] d [] = some (.str p, none) := by
  simp [GetEncryptedValue, herr, lookupOr, hget, hh, hdec, convertInputToType_plain lib p hp]

/-- C5: the base64 envelope round trip.  For every byte string `p`, decrypting
    `ENC(` or `enc(` followed by the standard base64 encoding of `p` and `)`,
    with an empty key, returns `p` and no error; when `p` is opaque,
    `GetEncryptedValue` on a key storing either envelope, with empty kind and
    empty key, returns `p`. -/
theorem decryptValue_base64_roundtrip (lib : Lib) (p : GoString) (hp : IsBytes p) :
    decryptValue lib (bytes "ENC(" ++ b64Encode p ++ bytes ")") [] = (p, none) ∧
    decryptValue lib (bytes "enc(" ++ b64Encode p ++ bytes ")") [] = (p, none) ∧
    (isOpaque p = true → ∀ (env : EnvData) (key : GoString) (d : Any), env.EnvError = none →
      (mapGet env.EnvContents key = some (.str (bytes "ENC(" ++ b64Encode p ++ bytes ")")) ∨
        mapGet env.EnvContents key = some (.str (bytes "enc(" ++ b64Encode p ++ bytes ")"))) →
      GetEncryptedValue lib env key [] d [] = some (.str p, none)) := by
  refine ⟨decryptValue_ENC lib p hp, decryptValue_enc lib p hp, ?_⟩
  intro hop env key d herr hget
  rcases hget with hget | hget
  · exact GetEncryptedValue_infer lib env key _ p d herr hget (isHashed_ENC _)
      (decryptValue_ENC lib p hp) hop
  · exact GetEncryptedValue_infer lib env key _ p d herr hget (isHashed_enc _)
      (decryptValue_enc lib p hp) hop

theorem decryptValue_base64_roundtrip_witness :
    b64Encode (bytes "asdjknakjsdbsjkbdfkjshdbf") = bytes "YXNkamtuYWtqc2Ric2prYmRma2pzaGRiZg==" ∧
    decryptValue exampleLib (bytes "ENC(" ++ b64Encode (bytes "asdjknakjsdbsjkbdfkjshdbf")
      ++ bytes ")") [] = (bytes "asdjknakjsdbsjkbdfkjshdbf", none) ∧
    GetEncryptedValue exampleLib
      (storeOf [(bytes "my_encrypted_var",
        .str (bytes "ENC(" ++ b64Encode (bytes "asdjknakjsdbsjkbdfkjshdbf") ++ bytes ")"))])
      (bytes "my_encrypted_var") [] (.str (bytes "expected_value")) []
      = some (.str (bytes "asdjknakjsdbsjkbdfkjshdbf"), none) :=
  ⟨by decide,
   (decryptValue_base64_roundtrip exampleLib (bytes "asdjknakjsdbsjkbdfkjshdbf") (by decide)).1,
   (decryptValue_base64_roundtrip exampleLib (bytes "asdjknakjsdbsjkbdfkjshdbf") (by decide)).2.2
     (by decide) _ (bytes "my_encrypted_var") _ rfl (Or.inl (by decide))⟩

/-! ## Ingestion -/

theorem lookup_cons_if (k2 k1 : GoString) (v1 : Any) (r : Contents) :
    List.lookup k2 ((k1, v1) :: r) = if k2 = k1 then some v1 else List.lookup k2 r := by
  by_cases h : k2 = k1
  · subst h; simp [List.lookup]
  · have hb : (k2 == k1) = false := by simpa using h
    simp [List.lookup, hb, h]

theorem mapGet_mapSet (m : Contents) (k k2 : GoString) (v : Any) :
    mapGet (mapSet m k v) k2 = if k2 = k then some v else mapGet m k2 := by
  unfold mapGet
  induction m with
  | nil => rw [mapSet, lookup_cons_if]
  | cons kv r ih =>
    obtain ⟨k1, v1⟩ := kv
    rw [mapSet]
    by_cases h1 : k1 = k
    · subst h1
      rw [if_pos rfl, lookup_cons_if, lookup_cons_if]
      by_cases h : k2 = k1 <;> simp [h]
    · rw [if_neg h1, lookup_cons_if, lookup_cons_if, ih]
      by_cases h : k2 = k
      · subst h
        have h2 : ¬ k2 = k1 := fun e => h1 e.symm
        simp [h2]
      · simp [h]

theorem Extends.refl (a : Contents) : Extends a a := fun _ _ h => h

theorem Extends.trans {a b c : Contents} (h1 : Extends c b) (h2 : Extends b a) : Extends c a :=
  fun k v h => h1 k v (h2 k v h)

theorem parseLine_extends (getenv : Environ) (c c1 : Contents) (text : GoString)
    (h : parseLine getenv c text = some c1) : Extends c1 c := by
  unfold parseLine at h
  simp only at h
  split at h
  · cases h; exact Extends.refl _
  · split at h
    · split at h
      · cases h
      · split at h
        · cases h; exact Extends.refl _
        · cases h
          rename_i hk
          intro k v hkv
          rw [mapGet_mapSet]
          split
          · rename_i e
            subst e
            rw [hkv] at hk
            simp at hk
          · exact hkv
    · cases h; exact Extends.refl _

theorem parseLines_extends (getenv : Environ) (lines : List GoString) :
    ∀ c c1 : Contents, parseLines getenv c lines = some c1 → Extends c1 c := by
  induction lines with
  | nil => intro c c1 h; simp [parseLines] at h; subst h; exact Extends.refl _
  | cons l rest ih =>
    intro c c1 h
    rw [parseLines] at h
    split at h
    · cases h
    · rename_i c0 h0
      exact Extends.trans (ih c0 c1 h) (parseLine_extends getenv c c0 l h0)

theorem parseLine_settled (getenv : Environ) (c c1 c2 : Contents) (text : GoString)
    (h : parseLine getenv c text = some c1) (h2 : Extends c2 c1) :
    parseLine getenv c2 text = some c2 := by
  unfold parseLine at h ⊢
  simp only at h ⊢
  split
  · rfl
  · rename_i hline
    simp only [hline] at h
    split
    · rename_i p0 p1 hsplit
      simp only [hsplit] at h
      split
      · rename_i hq
        simp only [hq] at h
        cases h
      · rename_i value hq
        simp only [hq] at h
        have hkey : (mapGet c2 (TrimSpace p0)).isSome = true := by
          by_cases hk : (mapGet c (TrimSpace p0)).isSome = true
          · rw [if_pos hk] at h
            cases h
            obtain ⟨v, hv⟩ := Option.isSome_iff_exists.mp hk
            rw [h2 _ v hv]; rfl
          · rw [if_neg hk] at h
            cases h
            have := h2 (TrimSpace p0) _ (by rw [mapGet_mapSet, if_pos rfl])
            rw [this]; rfl
        rw [if_pos hkey]
    · rfl

theorem parseLines_settled (getenv : Environ) (lines : List GoString) :
    ∀ c c1 c2 : Contents, parseLines getenv c lines = some c1 → Extends c2 c1 →
      parseLines getenv c2 lines = some c2 := by
  induction lines with
  | nil => intro c c1 c2 _ _; rfl
  | cons l rest ih =>
    intro c c1 c2 h h2
    rw [parseLines] at h
    split at h
    · cases h
    · rename_i c0 h0
      have hc0 : Extends c2 c0 := Extends.trans h2 (parseLines_extends getenv rest c0 c1 h)
      rw [parseLines, parseLine_settled getenv c c0 c2 l h0 hc0]
      exact ih c0 c1 c2 h h2

theorem parseLines_append (getenv : Environ) (l1 l2 : List GoString) :
    ∀ c : Contents, parseLines getenv c (l1 ++ l2)
      = match parseLines getenv c l1 with
        | none => none
        | some mid => parseLines getenv mid l2 := by
  induction l1 with
  | nil => intro c; rfl
  | cons l rest ih =>
    intro c
    rw [List.cons_append, parseLines, parseLines]
    cases parseLine getenv c l with
    | none => rfl
    | some c0 => exact ih c0

/-- C6: ingestion is idempotent and the first definition wins.  When the line
    loop completes on `lines` from `store`, running it again on the result
    changes nothing; every key of `store` keeps its value; and so does every
    key present after any initial part of the lines. -/
theorem parseLines_idempotent (getenv : Environ) (store loaded : Contents)
    (lines : List GoString) (h : parseLines getenv store lines = some loaded) :
    parseLines getenv loaded lines = some loaded ∧
    (∀ k v, mapGet store k = some v → mapGet loaded k = some v) ∧
    (∀ l1 l2 mid, lines = l1 ++ l2 → parseLines getenv store l1 = some mid →
      ∀ k v, mapGet mid k = some v → mapGet loaded k = some v) := by
  refine ⟨parseLines_settled getenv lines store loaded loaded h (Extends.refl _),
    parseLines_extends getenv lines store loaded h, ?_⟩
  intro l1 l2 mid hl hmid
  subst hl
  rw [parseLines_append, hmid] at h
  exact parseLines_extends getenv l2 mid loaded h

theorem parseLines_idempotent_witness :
    parseLines emptyEnviron
        [(bytes "TEST_VAR", .str (bytes "value")), (bytes "ANOTHER_VAR", .str (bytes "kept"))]
        [bytes "TEST_VAR=value", bytes "ANOTHER_VAR=another_value", bytes "THIRD=$\x7bTEST_VAR\x7d/x"]
      = some [(bytes "TEST_VAR", .str (bytes "value")), (bytes "ANOTHER_VAR", .str (bytes "kept")),
          (bytes "THIRD", .str (bytes "value/x"))] ∧
    parseLines emptyEnviron
        [(bytes "TEST_VAR", .str (bytes "value")), (bytes "ANOTHER_VAR", .str (bytes "kept")),
          (bytes "THIRD", .str (bytes "value/x"))]
        [bytes "TEST_VAR=value", bytes "ANOTHER_VAR=another_value", bytes "THIRD=$\x7bTEST_VAR\x7d/x"]
      = some [(bytes "TEST_VAR", .str (bytes "value")), (bytes "ANOTHER_VAR", .str (bytes "kept")),
          (bytes "THIRD", .str (bytes "value/x"))] :=
  ⟨by decide,
   (parseLines_idempotent emptyEnviron
      [(bytes "TEST_VAR", .str (bytes "value")), (bytes "ANOTHER_VAR", .str (bytes "kept"))]
      _ [bytes "TEST_VAR=value", bytes "ANOTHER_VAR=another_value", bytes "THIRD=$\x7bTEST_VAR\x7d/x"]
      (by decide)).1⟩

/-! ## The envelope predicate and the sticky error -/

theorem isEncVariant_cases (p : GoString) (h : isEncVariant p = true) :
    ∃ a b c, p = [a, b, c, 40] ∧ (a = 69 ∨ a = 101) ∧ (b = 78 ∨ b = 110) ∧ (c = 67 ∨ c = 99) := by
  have hlow : ∀ x y, lowerByte x = y → (65 ≤ x ∧ x ≤ 90 ∧ y = x + 32) ∨ (¬(65 ≤ x ∧ x ≤ 90) ∧ y = x) := by
    intro x y hxy
    unfold lowerByte at hxy
    split_ifs at hxy with hc
    · exact Or.inl ⟨hc.1, hc.2, hxy.symm⟩
    · exact Or.inr ⟨hc, hxy.symm⟩
  simp only [isEncVariant, bytes_enc, beq_iff_eq] at h
  match p, h with
  | [a, b, c, d], h =>
    simp only [List.map_cons, List.map_nil, List.cons.injEq, and_true] at h
    obtain ⟨ha, hb, hc, hd⟩ := h
    have h1 := hlow a _ ha
    have h2 := hlow b _ hb
    have h3 := hlow c _ hc
    have h4 := hlow d _ hd
    refine ⟨a, b, c, ?_, ?_, ?_, ?_⟩
    · have : d = 40 := by omega
      rw [this]
    · omega
    · omega
    · omega
  | [], h => simp at h
  | [_], h => simp at h
  | [_, _], h => simp at h
  | [_, _, _], h => simp at h
  | _ :: _ :: _ :: _ :: _ :: _, h => simp at h

theorem isHashed_variant (a b c : Nat) (body : GoString)
    (ha : a = 69 ∨ a = 101) :
    isHashed (.str ([a, b, c, 40] ++ body ++ bytes ")"))
      = ([a, b, c, 40] == bytes "enc(" || [a, b, c, 40] == bytes "ENC(") := by
  have e : [a, b, c, 40] ++ body ++ bytes ")" = a :: (([b, c, 40] ++ body) ++ [41]) := by
    rw [bytes_close]; simp
  have ha1 : 32 < a := by omega
  have ha2 : a < 128 := by omega
  simp only [isHashed, Sprint]
  rw [e, TrimSpace_of_plain_ends a 41 _ ha1 ha2 (by decide) (by decide), ← e,
    HasSuffix_append, Bool.and_true, bytes_enc, bytes_ENC, bytes_close]
  simp [HasPrefix]

theorem GetEncryptedValue_rejects_iff (lib : Lib) (env : EnvData) (key kind dkey str : GoString)
    (d : Any) (herr : env.EnvError = none) (hget : mapGet env.EnvContents key = some (.str str)) :
    GetEncryptedValue lib env key kind d dkey = some (.nil, some (.notEncrypted (.str str)))
      ↔ isHashed (.str str) = false := by
  constructor
  · intro h
    by_contra hh
    simp only [Bool.not_eq_false] at hh
    simp only [GetEncryptedValue, herr, lookupOr, hget, hh, Bool.not_true, Bool.false_eq_true,
      if_false] at h
    split at h
    · cases h
    · split at h
      · split at h
        · cases h
        · cases h
        · cases h
      · split at h
        · cases h
        · cases h
        · cases h
  · intro hh
    simp [GetEncryptedValue, herr, lookupOr, hget, hh]

/-- C11, as stated, fails: `Enc(` is a case variant of `enc(`, but `isHashed`
    rejects `Enc(YQ==)` and `GetEncryptedValue` reports it as not encrypted. -/
theorem isHashed_mixed_case_counterexample :
    isEncVariant (bytes "Enc(") = true ∧
    isHashed (.str (bytes "Enc(" ++ bytes "YQ==" ++ bytes ")")) = false ∧
    GetEncryptedValue exampleLib
        (storeOf [(bytes "K", .str (bytes "Enc(" ++ bytes "YQ==" ++ bytes ")"))])
        (bytes "K") [] .nil []
      = some (.nil, some (.notEncrypted (.str (bytes "Enc(" ++ bytes "YQ==" ++ bytes ")")))) := by
  decide

/-- C11, amended: of the case variants of `enc(`, `isHashed` recognizes
    exactly the two spellings `enc(` and `ENC(`, whatever the body before the
    closing `)`; `GetEncryptedValue` rejects a stored value of that form as not
    encrypted exactly when the opening has another spelling. -/
theorem isHashed_exact_spelling (lib : Lib) (p body : GoString) (hp : isEncVariant p = true) :
    (isHashed (.str (p ++ body ++ bytes ")")) = true ↔ (p = bytes "enc(" ∨ p = bytes "ENC(")) ∧
    ∀ (env : EnvData) (key kind dkey : GoString) (d : Any), env.EnvError = none →
      mapGet env.EnvContents key = some (.str (p ++ body ++ bytes ")")) →
      (GetEncryptedValue lib env key kind d dkey
          = some (.nil, some (.notEncrypted (.str (p ++ body ++ bytes ")"))))
        ↔ ¬ (p = bytes "enc(" ∨ p = bytes "ENC(")) := by
  obtain ⟨a, b, c, rfl, ha, _, _⟩ := isEncVariant_cases p hp
  have hiff : isHashed (.str ([a, b, c, 40] ++ body ++ bytes ")")) = true
      ↔ ([a, b, c, 40] = bytes "enc(" ∨ [a, b, c, 40] = bytes "ENC(") := by
    rw [isHashed_variant a b c body ha]
    simp
  refine ⟨hiff, ?_⟩
  intro env key kind dkey d herr hget
  rw [GetEncryptedValue_rejects_iff lib env key kind dkey _ d herr hget, ← hiff]
  simp

theorem isHashed_exact_spelling_witness :
    (isHashed (.str (bytes "eNC(" ++ bytes "YQ==" ++ bytes ")")) = true
      ↔ (bytes "eNC(" = bytes "enc(" ∨ bytes "eNC(" = bytes "ENC(")) ∧
    isHashed (.str (bytes "enc(" ++ bytes "YQ==" ++ bytes ")")) = true :=
  ⟨(isHashed_exact_spelling exampleLib (bytes "eNC(") (bytes "YQ==") (by decide)).1,
   (isHashed_exact_spelling exampleLib (bytes "enc(") (bytes "YQ==") (by decide)).1.2
     (Or.inl rfl)⟩

/-- C12: the sticky error short-circuits retrieval.  When `EnvError` is set,
    `GetValue` and `GetEncryptedValue` return a nil value and exactly that
    error, for every key, kind, default and decryption key and whatever the
    store holds. -/
theorem sticky_error_short_circuit (lib : Lib) (env : EnvData) (e : Err)
    (which kind dkey : GoString) (d : Any) (herr : env.EnvError = some e) :
    GetValue lib env which kind d = some (.nil, some e) ∧
    GetEncryptedValue lib env which kind d dkey = some (.nil, some e) ∧
    ∀ contents : Contents,
      GetValue lib { env with EnvContents := contents } which kind d = some (.nil, some e) ∧
      GetEncryptedValue lib { env with EnvContents := contents } which kind d dkey
        = some (.nil, some e) := by
  refine ⟨by simp [GetValue, herr], by simp [GetEncryptedValue, herr], ?_⟩
  intro contents
  exact ⟨by simp [GetValue, herr], by simp [GetEncryptedValue, herr]⟩

theorem sticky_error_short_circuit_witness :
    GetValue exampleLib
        { FilePath := [], EnvContents := [(bytes "K", .str (bytes "42"))],
          EnvError := some .fileNotExist } (bytes "K") (bytes "int") .nil
      = some (.nil, some .fileNotExist) ∧
    GetEncryptedValue exampleLib
        { FilePath := [], EnvContents := [(bytes "K", .str (bytes "42"))],
          EnvError := some .fileNotExist } (bytes "K") (bytes "int") .nil (bytes "secret")
      = some (.nil, some .fileNotExist) :=
  ⟨(sticky_error_short_circuit exampleLib _ .fileNotExist (bytes "K") (bytes "int")
      (bytes "secret") .nil rfl).1,
   (sticky_error_short_circuit exampleLib _ .fileNotExist (bytes "K") (bytes "int")
      (bytes "secret") .nil rfl).2.1⟩

/-! ## Reloading, integers and line parsing -/

/-- C13, as stated, fails: `NewEnvParser` on a missing file sets `EnvError`;
    the next call of `EnvParser`, on the existing `.env`, finds and reads its
    file and stores its two lines, but `EnvError` is still set and `GetValue`
    still returns it. -/
theorem parse_reload_counterexample :
    NewEnvParser exampleFS emptyEnviron 5 (some (bytes "missing.env")) none none
      = some { FilePath := bytes "/a/missing.env", EnvContents := [],
               EnvError := some .fileNotExist } ∧
    EnvData.EnvParser exampleFS emptyEnviron 5
        { FilePath := bytes "/a/missing.env", EnvContents := [], EnvError := some .fileNotExist }
        none none none
      = some { FilePath := bytes "/a/.env",
               EnvContents := [(bytes "A", .str (bytes "1")), (bytes "B", .str (bytes "x1"))],
               EnvError := some .fileNotExist } ∧
    GetValue exampleLib
        { FilePath := bytes "/a/.env",
          EnvContents := [(bytes "A", .str (bytes "1")), (bytes "B", .str (bytes "x1"))],
          EnvError := some .fileNotExist } (bytes "A") [] .nil
      = some (.nil, some .fileNotExist) := by
  decide

theorem parse_never_clears (fs : FileSystem) (getenv : Environ) (fuel : Nat) (env env1 : EnvData)
    (fileName : GoString) (useRootPath : Bool)
    (h : parse fs getenv fuel env fileName useRootPath = some env1)
    (hne : env.EnvError ≠ none) : env1.EnvError ≠ none := by
  unfold parse at h
  split at h
  · cases h
  · cases h; simp
  · simp only at h
    split at h
    · cases h; simp
    · cases h; simp
    · split at h
      · cases h; simp
      · split at h
        · cases h
        · cases h; exact hne

/-- C13, amended: a reload does not clear the sticky error.  A call of `parse`
    that finds the root, finds and opens its file and completes the line loop
    returns the store with the lines loaded and `EnvError` exactly as it was;
    and no call of `parse` turns a set `EnvError` into nil. -/
theorem parse_keeps_error (fs : FileSystem) (getenv : Environ) (fuel : Nat) (env : EnvData)
    (fileName rootPath : GoString) (useRootPath : Bool) (lines : List GoString)
    (contents : Contents)
    (hroot : findRoot fs fuel = some (rootPath, none))
    (hstat : fs.stat (if !useRootPath then fileName else fs.join rootPath fileName) = .ok)
    (hopen : fs.openLines (if !useRootPath then fileName else fs.join rootPath fileName)
      = some lines)
    (hlines : parseLines getenv env.EnvContents lines = some contents) :
    parse fs getenv fuel env fileName useRootPath
      = some { FilePath := if !useRootPath then fileName else fs.join rootPath fileName,
               EnvContents := contents, EnvError := env.EnvError } ∧
    ∀ (env0 env2 : EnvData) (file2 : GoString) (useRoot2 : Bool),
      parse fs getenv fuel env0 file2 useRoot2 = some env2 →
      env0.EnvError ≠ none → env2.EnvError ≠ none := by
  refine ⟨?_, fun env0 env2 file2 useRoot2 h hne =>
    parse_never_clears fs getenv fuel env0 env2 file2 useRoot2 h hne⟩
  unfold parse
  simp only [hroot, hstat, hopen, hlines]

theorem parse_keeps_error_witness :
    parse exampleFS emptyEnviron 5
        { FilePath := bytes "/a/missing.env", EnvContents := [], EnvError := some .fileNotExist }
        (bytes ".env") true
      = some { FilePath := bytes "/a/.env",
               EnvContents := [(bytes "A", .str (bytes "1")), (bytes "B", .str (bytes "x1"))],
               EnvError := some .fileNotExist } :=
  (parse_keeps_error exampleFS emptyEnviron 5
    { FilePath := bytes "/a/missing.env", EnvContents := [], EnvError := some .fileNotExist }
    (bytes ".env") (bytes "/a") true [bytes "A=1", bytes "B=x$A"]
    [(bytes "A", .str (bytes "1")), (bytes "B", .str (bytes "x1"))]
    (by decide) (by decide) (by decide) (by decide)).1

theorem digitsValue_append (l : GoString) (c : Nat) :
    digitsValue (l ++ [c]) = digitsValue l * 10 + (c - 48) := by
  simp [digitsValue, List.foldl_append]

theorem digitsValue_eq_ofDigits (ds : GoString) :
    digitsValue ds = Nat.ofDigits 10 ((ds.map fun c => c - 48).reverse) := by
  induction ds using List.reverseRecOn with
  | nil => rfl
  | append_singleton l c ih =>
    rw [digitsValue_append, ih]
    simp [Nat.ofDigits_cons]
    omega

theorem stripSign_of_ne (c : Nat) (r : GoString) (h1 : c ≠ 43) (h2 : c ≠ 45) :
    stripSign (c :: r) = c :: r := by
  unfold stripSign
  split
  · rename_i heq; simp at heq; omega
  · rename_i heq; simp at heq; omega
  · rfl

theorem stripSign_of_digit (c : Nat) (r : GoString) (h : 48 ≤ c ∧ c ≤ 57) :
    stripSign (c :: r) = c :: r :=
  stripSign_of_ne c r (by omega) (by omega)

theorem signed_digits_shape (sign ds : GoString)
    (hsign : sign = [] ∨ sign = [43] ∨ sign = [45]) (hne : ds ≠ []) (hds : ∀ c ∈ ds, 48 ≤ c ∧ c ≤ 57) :
    stripSign (sign ++ ds) = ds ∧ ((sign ++ ds).head? == some 45) = (sign == [45]) := by
  obtain ⟨c, r, rfl⟩ := List.exists_cons_of_ne_nil hne
  have hc := hds c (by simp)
  rcases hsign with rfl | rfl | rfl
  · refine ⟨stripSign_of_digit c r hc, ?_⟩
    have : c ≠ 45 := by omega
    simp [this]
  · exact ⟨rfl, rfl⟩
  · exact ⟨rfl, rfl⟩

theorem isDigit_iff (c : Nat) : isDigit c = true ↔ 48 ≤ c ∧ c ≤ 57 := by
  simp [isDigit]

theorem matchInteger_signed_digits (sign ds : GoString)
    (hsign : sign = [] ∨ sign = [43] ∨ sign = [45]) (hne : ds ≠ []) (hds : ∀ c ∈ ds, 48 ≤ c ∧ c ≤ 57) :
    matchInteger (sign ++ ds) = true := by
  have hall : ds.all isDigit = true := by
    rw [List.all_eq_true]
    exact fun c hc => (isDigit_iff c).mpr (hds c hc)
  have hemp : ds.isEmpty = false := by
    cases ds with
    | nil => exact absurd rfl hne
    | cons _ _ => rfl
  simp [matchInteger, (signed_digits_shape sign ds hsign hne hds).1, hall, hemp]

theorem matchInteger_iff (t : GoString) : matchInteger t = true ↔ IsSignedDigits t := by
  constructor
  · intro h
    simp only [matchInteger, Bool.and_eq_true, Bool.not_eq_true', List.all_eq_true] at h
    have hds : ∀ c ∈ stripSign t, 48 ≤ c ∧ c ≤ 57 := fun c hc => (isDigit_iff c).mp (h.2 c hc)
    have hne : stripSign t ≠ [] := by
      intro e; rw [e] at h; simp at h
    rcases t with _ | ⟨c, r⟩
    · exact absurd rfl hne
    · by_cases h43 : c = 43
      · subst h43
        exact ⟨[43], r, Or.inr (Or.inl rfl), hne, hds, rfl⟩
      · by_cases h45 : c = 45
        · subst h45
          exact ⟨[45], r, Or.inr (Or.inr rfl), hne, hds, rfl⟩
        · rw [stripSign_of_ne c r h43 h45] at hds hne
          exact ⟨[], c :: r, Or.inl rfl, hne, hds, rfl⟩
  · rintro ⟨sign, ds, hsign, hne, hds, rfl⟩
    exact matchInteger_signed_digits sign ds hsign hne hds

theorem intValueOf_signed_digits (sign ds : GoString)
    (hsign : sign = [] ∨ sign = [43] ∨ sign = [45]) (hne : ds ≠ []) (hds : ∀ c ∈ ds, 48 ≤ c ∧ c ≤ 57) :
    intValueOf (sign ++ ds) = decimalValue sign ds := by
  obtain ⟨h1, h2⟩ := signed_digits_shape sign ds hsign hne hds
  unfold intValueOf decimalValue
  rw [h1, h2, digitsValue_eq_ofDigits]
  by_cases hs : sign = [45] <;> simp [hs]

/-- C14: a sign-and-digits string whose decimal value lies in the signed
    64-bit range comes back from `GetValue` with an empty kind as the integer
    of that value, with no error; and `isInteger` holds of exactly the strings
    of the sign-and-digits form. -/
theorem GetValue_integer (lib : Lib) (env : EnvData) (key sign ds t : GoString) (d : Any)
    (hsign : sign = [] ∨ sign = [43] ∨ sign = [45]) (hne : ds ≠ [])
    (hds : ∀ c ∈ ds, 48 ≤ c ∧ c ≤ 57)
    (hlo : -(2 ^ 63 : Int) ≤ decimalValue sign ds) (hhi : decimalValue sign ds < 2 ^ 63)
    (herr : env.EnvError = none) (hget : mapGet env.EnvContents key = some (.str (sign ++ ds))) :
    GetValue lib env key [] d = some (.int (decimalValue sign ds), none) ∧
    (isInteger (.str t) = true ↔ IsSignedDigits t) := by
  refine ⟨?_, matchInteger_iff t⟩
  have hint : isInteger (.str (sign ++ ds)) = true :=
    matchInteger_signed_digits sign ds hsign hne hds
  have hval := intValueOf_signed_digits sign ds hsign hne hds
  have hatoi := Atoi_in_range (sign ++ ds) hint (by rw [hval]; exact hlo) (by rw [hval]; exact hhi)
  rw [GetValue_infer lib env key d herr]
  simp [lookupOr, hget, Sprint, convertInputToType, hint, hatoi, hval]

theorem GetValue_integer_witness :
    GetValue exampleLib (storeOf [(bytes "N", .str (bytes "42"))]) (bytes "N") [] .nil
      = some (.int 42, none) ∧
    GetValue exampleLib (storeOf [(bytes "N", .str (bytes "+007"))]) (bytes "N") [] .nil
      = some (.int 7, none) :=
  ⟨(GetValue_integer exampleLib _ (bytes "N") [] (bytes "42") (bytes "-1") .nil (Or.inl rfl)
      (by decide) (by decide) (by decide) (by decide) rfl (by decide)).1,
   (GetValue_integer exampleLib _ (bytes "N") [43] (bytes "007") (bytes "-1") .nil
      (Or.inr (Or.inl rfl)) (by decide) (by decide) (by decide) (by decide) rfl (by decide)).1⟩

/-- C15: the code at the failing input.  The value part of the line `KEY="`
    is the single quote character, which both starts and ends with a quote;
    the slice `value[1 : len(value)-1]` is then `value[1:0]` and the line
    processing faults.  A value with both quotes is unquoted as claimed. -/
theorem parseLine_lone_quote_faults :
    parseLine emptyEnviron [] (bytes "KEY=\"") = none ∧
    parseLines emptyEnviron [] [bytes "A=1", bytes "KEY=\"", bytes "B=2"] = none ∧
    parseLine emptyEnviron [] (bytes "KEY=\"a \\\"b\\\" c\"")
      = some [(bytes "KEY", .str (bytes "a \"b\" c"))] := by
  decide

theorem SplitN2_at_first (a b : GoString) (sep : Nat) (ha : sep ∉ a) :
    SplitN2 (a ++ sep :: b) sep = [a, b] := by
  have hall : ∀ c ∈ a, (c != sep) = true := by
    intro c hc
    have : c ≠ sep := fun e => ha (e ▸ hc)
    simpa using this
  unfold SplitN2
  rw [if_pos (by simp), List.takeWhile_append_of_pos hall, List.dropWhile_append_of_pos hall,
    List.takeWhile_cons_of_neg (by simp), List.dropWhile_cons_of_neg (by simp)]
  simp

theorem SplitN2_without (s : GoString) (sep : Nat) (h : sep ∉ s) : SplitN2 s sep = [s] := by
  unfold SplitN2
  rw [if_neg h]

/-- C16: line parsing splits at the first `=` only.  A line whose trimmed
    form is `a = b` with no `=` in `a`, that is not a comment, whose key is not
    yet in the store and whose value part is not double-quoted and has no `$`,
    stores the trimmed `a` mapped to the trimmed `b`, further `=` included;
    a trimmed-empty line, a comment line and a line without `=` leave the
    store unchanged. -/
theorem parseLine_assignment (getenv : Environ) (contents : Contents) (text a b other : GoString)
    (hline : TrimSpace text = a ++ [61] ++ b) (ha : 61 ∉ a)
    (hcomment : HasPrefix (TrimSpace text) (bytes "#") = false)
    (hkey : mapGet contents (TrimSpace a) = none)
    (hquote : (HasPrefix (TrimSpace b) (bytes "\"") && HasSuffix (TrimSpace b) (bytes "\"")) = false)
    (hdollar : 36 ∉ TrimSpace b) :
    parseLine getenv contents text
      = some (mapSet contents (TrimSpace a) (.str (TrimSpace b))) ∧
    mapGet (mapSet contents (TrimSpace a) (.str (TrimSpace b))) (TrimSpace a)
      = some (.str (TrimSpace b)) ∧
    ((TrimSpace other = [] ∨ HasPrefix (TrimSpace other) (bytes "#") = true ∨
        61 ∉ TrimSpace other) → parseLine getenv contents other = some contents) := by
  refine ⟨?_, by rw [mapGet_mapSet, if_pos rfl], ?_⟩
  · have hsplit : SplitN2 (TrimSpace text) 61 = [a, b] := by
      rw [hline, List.append_assoc, List.singleton_append]
      exact SplitN2_at_first a b 61 ha
    have hne : (TrimSpace text).isEmpty = false := by
      rw [hline]; simp
    unfold parseLine
    simp only [hne, hcomment, Bool.or_self, Bool.false_eq_true, if_false, hsplit, hquote, hkey,
      Option.isSome_none]
    simp [substituteVariables, replaceAllFunc_copy_all _ _ hdollar]
  · intro h
    unfold parseLine
    by_cases h1 : (TrimSpace other).isEmpty = true
    · simp [h1]
    by_cases h2 : HasPrefix (TrimSpace other) (bytes "#") = true
    · simp [h2]
    have h3 : 61 ∉ TrimSpace other := by
      rcases h with h | h | h
      · rw [h] at h1; simp at h1
      · exact absurd h h2
      · exact h
    simp [h1, h2, SplitN2_without _ _ h3]

theorem parseLine_assignment_witness :
    parseLine emptyEnviron [] (bytes "TEST_VAR=value")
      = some (mapSet [] (TrimSpace (bytes "TEST_VAR")) (.str (TrimSpace (bytes "value")))) ∧
    parseLine emptyEnviron [(bytes "X", .str (bytes "1"))] (bytes "  URL = a=b=c  ")
      = some [(bytes "X", .str (bytes "1")), (bytes "URL", .str (bytes "a=b=c"))] ∧
    parseLine emptyEnviron [(bytes "X", .str (bytes "1"))] (bytes "  # URL = a")
      = some [(bytes "X", .str (bytes "1"))] :=
  ⟨(parseLine_assignment emptyEnviron [] (bytes "TEST_VAR=value") (bytes "TEST_VAR")
      (bytes "value") [] (by decide) (by decide) (by decide) (by decide) (by decide)
      (by decide)).1,
   (parseLine_assignment emptyEnviron [(bytes "X", .str (bytes "1"))] (bytes "  URL = a=b=c  ")
      (bytes "URL ") (bytes " a=b=c") (bytes "  # URL = a") (by decide) (by decide) (by decide)
      (by decide) (by decide) (by decide)).1,
   (parseLine_assignment emptyEnviron [(bytes "X", .str (bytes "1"))] (bytes "  URL = a=b=c  ")
      (bytes "URL ") (bytes " a=b=c") (bytes "  # URL = a") (by decide) (by decide) (by decide)
      (by decide) (by decide) (by decide)).2.2 (Or.inr (Or.inl (by decide)))⟩

/-! ## The converted view -/

theorem convertInputToType_total (lib : Lib) (s : GoString) :
    ∃ r, convertInputToType lib s = some r := by
  unfold convertInputToType
  split_ifs with h1 h2 h3 h4 h5 h6 h7 h8
  · exact ⟨_, rfl⟩
  · exact ⟨_, rfl⟩
  · exact ⟨_, rfl⟩
  · obtain ⟨l, hl⟩ := splitElements_of_isList s h4
    exact ⟨_, by rw [hl]; rfl⟩
  · obtain ⟨l, hl⟩ := splitElements_of_isTuple s h5
    exact ⟨_, by rw [hl]; rfl⟩
  · exact ⟨_, rfl⟩
  · exact ⟨_, rfl⟩
  · exact ⟨_, rfl⟩
  · exact ⟨_, rfl⟩

theorem vars_lookup_cons_if (k2 k1 : GoString) (v1 : Value) (r : Vars) :
    List.lookup k2 ((k1, v1) :: r) = if k2 = k1 then some v1 else List.lookup k2 r := by
  by_cases h : k2 = k1
  · subst h; simp [List.lookup]
  · have hb : (k2 == k1) = false := by simpa using h
    simp [List.lookup, hb, h]

theorem varsGet_varsSet (m : Vars) (k k2 : GoString) (v : Value) :
    varsGet (varsSet m k v) k2 = if k2 = k then some v else varsGet m k2 := by
  unfold varsGet
  induction m with
  | nil => rw [varsSet, vars_lookup_cons_if]
  | cons kv r ih =>
    obtain ⟨k1, v1⟩ := kv
    rw [varsSet]
    by_cases h1 : k1 = k
    · subst h1
      rw [if_pos rfl, vars_lookup_cons_if, vars_lookup_cons_if]
      by_cases h : k2 = k1 <;> simp [h]
    · rw [if_neg h1, vars_lookup_cons_if, vars_lookup_cons_if, ih]
      by_cases h : k2 = k
      · subst h
        have h2 : ¬ k2 = k1 := fun e => h1 e.symm
        simp [h2]
      · simp [h]

theorem varsGet_map_toValue (c : Contents) (k : GoString) :
    varsGet (c.map fun kv => (kv.1, kv.2.toValue)) k = (mapGet c k).map Any.toValue := by
  unfold varsGet mapGet
  induction c with
  | nil => rfl
  | cons kv r ih =>
    obtain ⟨k1, v1⟩ := kv
    rw [List.map_cons, vars_lookup_cons_if, lookup_cons_if, ih]
    by_cases h : k = k1 <;> simp [h]

theorem mapSet_fresh (m : Contents) (k : GoString) (v : Any) (h : k ∉ keysOf m) :
    mapSet m k v = m ++ [(k, v)] := by
  induction m with
  | nil => rfl
  | cons kv r ih =>
    obtain ⟨k1, v1⟩ := kv
    have h1 : k1 ≠ k := fun e => h (by simp [keysOf, e])
    have h2 : k ∉ keysOf r := fun e => h (by simp [keysOf] at e ⊢; exact Or.inr e)
    rw [mapSet, if_neg h1, ih h2]
    rfl

theorem copyContents_nodup (rest : Contents) :
    ∀ acc : Contents, (keysOf (acc ++ rest)).Nodup → copyContents rest acc = acc ++ rest := by
  induction rest with
  | nil => intro acc _; simp [copyContents]
  | cons kv r ih =>
    intro acc h
    obtain ⟨k, v⟩ := kv
    have hk : k ∉ keysOf acc := by
      intro hmem
      simp only [keysOf, List.map_append, List.map_cons] at h hmem
      have := (List.nodup_append.mp h).2.2
      exact this hmem (by simp)
    rw [copyContents, mapSet_fresh acc k v hk, ih _ (by simpa using h)]
    simp

theorem mapGet_of_mem (c : Contents) (k : GoString) (a : Any) (hn : (keysOf c).Nodup)
    (h : (k, a) ∈ c) : mapGet c k = some a := by
  unfold mapGet
  induction c with
  | nil => simp at h
  | cons kv r ih =>
    obtain ⟨k1, v1⟩ := kv
    simp only [keysOf, List.map_cons, List.nodup_cons] at hn
    rw [lookup_cons_if]
    rcases List.mem_cons.mp h with e | hr
    · cases e; simp
    · have hk : k ≠ k1 := by
        intro e; subst e
        exact hn.1 (List.mem_map_of_mem Prod.fst hr)
      rw [if_neg hk]
      exact ih hn.2 hr

theorem mem_of_mapGet (c : Contents) (k : GoString) (a : Any) (h : mapGet c k = some a) :
    (k, a) ∈ c := by
  unfold mapGet at h
  induction c with
  | nil => simp at h
  | cons kv r ih =>
    obtain ⟨k1, v1⟩ := kv
    rw [lookup_cons_if] at h
    by_cases hk : k = k1
    · rw [if_pos hk] at h
      cases h; subst hk; simp
    · rw [if_neg hk] at h
      exact List.mem_cons_of_mem _ (ih h)

theorem getVarsLoop_spec (lib : Lib) (es : Contents) :
    ∀ (vars : Vars) (err : Option Err), (keysOf es).Nodup →
      (∀ kv ∈ es, ∃ s, kv.2 = Any.str s) →
      ∃ vars1 err1, getVarsLoop lib es vars err = some (vars1, err1) ∧
        (∀ k, k ∉ keysOf es → varsGet vars1 k = varsGet vars k) ∧
        (∀ k a, (k, a) ∈ es →
          (∀ v, CoercesTo lib a v → varsGet vars1 k = some v) ∧
          (FailsCoercion lib a → varsGet vars1 k = varsGet vars k)) ∧
        (err1 ≠ none ↔ (err ≠ none ∨ ∃ k a, (k, a) ∈ es ∧ FailsCoercion lib a)) := by
  induction es with
  | nil =>
    intro vars err _ _
    exact ⟨vars, err, rfl, fun _ _ => rfl, fun _ _ h => by simp at h, by simp⟩
  | cons kv rest ih =>
    intro vars err hn hstr
    obtain ⟨key, value⟩ := kv
    obtain ⟨s, hs⟩ := hstr (key, value) (by simp)
    simp only at hs
    subst hs
    simp only [keysOf, List.map_cons, List.nodup_cons] at hn
    have hstr2 : ∀ kv ∈ rest, ∃ s, kv.2 = Any.str s := fun kv h => hstr kv (List.mem_cons_of_mem _ h)
    have hkey : ∀ k a, (k, a) ∈ rest → k ≠ key := by
      intro k a hmem e
      subst e
      exact hn.1 (List.mem_map_of_mem Prod.fst hmem)
    obtain ⟨r, hr⟩ := convertInputToType_total lib s
    obtain ⟨cv, ce⟩ := r
    cases ce with
    | none =>
      obtain ⟨vars1, err1, hloop, hout, hin, herr⟩ := ih (varsSet vars key cv) err hn.2 hstr2
      refine ⟨vars1, err1, ?_, ?_, ?_, ?_⟩
      · simp [getVarsLoop, convertToString, hr, hloop]
      · intro k hk
        have hk1 : k ≠ key := fun e => hk (by simp [keysOf, e])
        have hk2 : k ∉ keysOf rest := fun e => hk (by simp [keysOf] at e ⊢; exact Or.inr e)
        rw [hout k hk2, varsGet_varsSet, if_neg hk1]
      · intro k a hmem
        rcases List.mem_cons.mp hmem with e | hmem
        · cases e
          have hk2 : key ∉ keysOf rest := hn.1
          constructor
          · rintro v ⟨s2, hs2, hc⟩
            cases hs2
            rw [hr] at hc
            cases hc
            rw [hout key hk2, varsGet_varsSet, if_pos rfl]
          · rintro ⟨s2, r2, e2, hs2, hc⟩
            cases hs2
            rw [hr] at hc
            cases hc
        · refine ⟨(hin k a hmem).1, fun hf => ?_⟩
          rw [(hin k a hmem).2 hf, varsGet_varsSet, if_neg (hkey k a hmem)]
      · rw [herr]
        constructor
        · rintro (h | ⟨k, a, hmem, hf⟩)
          · exact Or.inl h
          · exact Or.inr ⟨k, a, List.mem_cons_of_mem _ hmem, hf⟩
        · rintro (h | ⟨k, a, hmem, hf⟩)
          · exact Or.inl h
          · rcases List.mem_cons.mp hmem with e | hmem
            · cases e
              obtain ⟨s2, r2, e2, hs2, hc⟩ := hf
              cases hs2
              rw [hr] at hc
              cases hc
            · exact Or.inr ⟨k, a, hmem, hf⟩
    | some e =>
      obtain ⟨vars1, err1, hloop, hout, hin, herr⟩ :=
        ih vars (some (.varToType key e)) hn.2 hstr2
      refine ⟨vars1, err1, ?_, ?_, ?_, ?_⟩
      · simp [getVarsLoop, convertToString, hr, hloop]
      · intro k hk
        have hk2 : k ∉ keysOf rest := fun e => hk (by simp [keysOf] at e ⊢; exact Or.inr e)
        exact hout k hk2
      · intro k a hmem
        rcases List.mem_cons.mp hmem with e1 | hmem
        · cases e1
          have hk2 : key ∉ keysOf rest := hn.1
          constructor
          · rintro v ⟨s2, hs2, hc⟩
            cases hs2
            rw [hr] at hc
            cases hc
          · intro _
            exact hout key hk2
        · exact hin k a hmem
      · rw [herr]
        constructor
        · intro _
          exact Or.inr ⟨key, .str s, by simp, s, cv, e, rfl, hr⟩
        · intro _
          exact Or.inl (by simp)

/-- C17: partial success of the bulk view.  For a store whose values are
    strings, `GetVars` returns; a key whose string coerces under inference
    maps to the value `convertInputToType` yields, a key whose string fails
    keeps its string, whatever happens to the other entries; `EnvContents` is
    unchanged; and `EnvError`, unset before, is set after the call exactly when
    some entry failed. -/
theorem GetVars_partial_success (lib : Lib) (env : EnvData)
    (hn : (keysOf env.EnvContents).Nodup)
    (hstr : ∀ kv ∈ env.EnvContents, ∃ s, kv.2 = Any.str s) :
    ∃ vars env1, GetVars lib env = some (vars, env1) ∧
      env1.EnvContents = env.EnvContents ∧
      (∀ k s v, mapGet env.EnvContents k = some (.str s) →
        convertInputToType lib s = some (v, none) → varsGet vars k = some v) ∧
      (∀ k s r e, mapGet env.EnvContents k = some (.str s) →
        convertInputToType lib s = some (r, some e) → varsGet vars k = some (.str s)) ∧
      (env.EnvError = none →
        (env1.EnvError ≠ none ↔
          ∃ k s r e, mapGet env.EnvContents k = some (.str s) ∧
            convertInputToType lib s = some (r, some e))) := by
  have hcopy : copyContents env.EnvContents [] = env.EnvContents := by
    rw [copyContents_nodup _ [] (by simpa using hn)]
    rfl
  obtain ⟨vars1, err1, hloop, _, hin, herr⟩ :=
    getVarsLoop_spec lib env.EnvContents
      (env.EnvContents.map fun kv => (kv.1, kv.2.toValue)) env.EnvError hn hstr
  have hiff : (∃ k a, (k, a) ∈ env.EnvContents ∧ FailsCoercion lib a) ↔
      ∃ k s r e, mapGet env.EnvContents k = some (.str s) ∧
        convertInputToType lib s = some (r, some e) := by
    constructor
    · rintro ⟨k, a, hmem, s, r, e, rfl, hc⟩
      exact ⟨k, s, r, e, mapGet_of_mem _ k _ hn hmem, hc⟩
    · rintro ⟨k, s, r, e, hget, hc⟩
      exact ⟨k, .str s, mem_of_mapGet _ k _ hget, s, r, e, rfl, hc⟩
  by_cases hemp : env.EnvContents = []
  · refine ⟨[], env, ?_, rfl, ?_, ?_, ?_⟩
    · simp [GetVars, hemp, copyContents]
    · intro k s v hget; rw [hemp] at hget; simp [mapGet] at hget
    · intro k s r e hget; rw [hemp] at hget; simp [mapGet] at hget
    · intro hnone
      rw [hnone]
      simp only [ne_eq, not_true_eq_false, false_iff, not_exists, not_and]
      intro k s r e hget
      rw [hemp] at hget
      simp [mapGet] at hget
  · refine ⟨vars1, { env with EnvError := err1 }, ?_, rfl, ?_, ?_, ?_⟩
    · have hne : (env.EnvContents.map fun kv => (kv.1, kv.2.toValue)).isEmpty = false := by
        cases h : env.EnvContents with
        | nil => exact absurd h hemp
        | cons _ _ => rfl
      simp [GetVars, hcopy, hne, hloop]
    · intro k s v hget hc
      exact (hin k _ (mem_of_mapGet _ k _ hget)).1 v ⟨s, rfl, hc⟩
    · intro k s r e hget hc
      rw [(hin k _ (mem_of_mapGet _ k _ hget)).2 ⟨s, r, e, rfl, hc⟩, varsGet_map_toValue, hget]
      rfl
    · intro hnone
      show err1 ≠ none ↔ _
      rw [herr, hnone, ← hiff]
      simp

theorem GetVars_partial_success_witness :
    ∃ vars env1,
      GetVars exampleLib (storeOf [(bytes "A", .str (bytes "1")),
        (bytes "B", .str (bytes "\x7babc\x7d")), (bytes "C", .str (bytes "true"))])
        = some (vars, env1) ∧
      env1.EnvContents = [(bytes "A", .str (bytes "1")),
        (bytes "B", .str (bytes "\x7babc\x7d")), (bytes "C", .str (bytes "true"))] ∧
      varsGet vars (bytes "A") = some (.int 1) ∧
      varsGet vars (bytes "B") = some (.str (bytes "\x7babc\x7d")) ∧
      env1.EnvError ≠ none := by
  obtain ⟨vars, env1, h1, h2, h3, h4, h5⟩ :=
    GetVars_partial_success exampleLib (storeOf [(bytes "A", .str (bytes "1")),
      (bytes "B", .str (bytes "\x7babc\x7d")), (bytes "C", .str (bytes "true"))])
      (by decide)
      (by
        intro kv h
        simp only [storeOf, List.mem_cons, List.mem_singleton, List.not_mem_nil, or_false] at h
        rcases h with rfl | rfl | rfl <;> exact ⟨_, rfl⟩)
  exact ⟨vars, env1, h1, h2, h3 (bytes "A") (bytes "1") (.int 1) (by decide) (by decide),
    h4 (bytes "B") (bytes "\x7babc\x7d") _ _ (by decide)
      (by decide : convertInputToType exampleLib (bytes "\x7babc\x7d")
        = some (.map none, some (.unmarshalToMap (.jsonUnmarshal (bytes "\x7babc\x7d"))))),
    (h5 rfl).2 ⟨bytes "B", bytes "\x7babc\x7d", _, _, by decide,
      (by decide : convertInputToType exampleLib (bytes "\x7babc\x7d")
        = some (.map none, some (.unmarshalToMap (.jsonUnmarshal (bytes "\x7babc\x7d")))))⟩⟩

/-! ## The key mode of decryption -/

theorem mem_trimLeftN (n : Nat) : ∀ (s : GoString) (x : Nat), x ∈ trimLeftN n s → x ∈ s := by
  induction n with
  | zero => intro s x h; exact h
  | succ n ih =>
    intro s x h
    rw [trimLeftN] at h
    split at h
    · exact h
    · exact List.mem_of_mem_drop (ih _ x h)

theorem mem_trimRevN (n : Nat) : ∀ (s : GoString) (x : Nat), x ∈ trimRevN n s → x ∈ s := by
  induction n with
  | zero => intro s x h; exact h
  | succ n ih =>
    intro s x h
    rw [trimRevN] at h
    split at h
    · exact h
    · exact List.mem_of_mem_drop (ih _ x h)

theorem mem_TrimSpace (s : GoString) (x : Nat) (h : x ∈ TrimSpace s) : x ∈ s := by
  unfold TrimSpace TrimRightSpace TrimLeftSpace at h
  rw [List.mem_reverse] at h
  have h1 := mem_trimRevN _ _ x h
  rw [List.mem_reverse] at h1
  exact mem_trimLeftN _ _ x h1

theorem mem_of_HasPrefix (s pre : GoString) (x : Nat) (h : HasPrefix s pre = true)
    (hx : x ∈ pre) : x ∈ s := by
  simp only [HasPrefix, beq_iff_eq] at h
  rw [← h] at hx
  exact List.mem_of_mem_take hx

theorem paren_of_isHashed (v : Any) (h : isHashed v = true) : 40 ∈ Sprint v := by
  simp only [isHashed, Bool.and_eq_true, Bool.or_eq_true] at h
  apply mem_TrimSpace
  rcases h.1 with h1 | h1
  · exact mem_of_HasPrefix _ _ 40 h1 (by decide)
  · exact mem_of_HasPrefix _ _ 40 h1 (by decide)

theorem mem_b64SkipNewlines (s : GoString) (h : 40 ∈ s) : 40 ∈ b64SkipNewlines s := by
  unfold b64SkipNewlines
  induction s with
  | nil => simp at h
  | cons c r ih =>
    rw [List.dropWhile_cons]
    by_cases hc : (c == 10 || c == 13) = true
    · rw [if_pos hc]
      rcases List.mem_cons.mp h with e | hr
      · subst e
        exact absurd hc (by decide)
      · exact ih hr
    · rw [if_neg hc]
      exact h

theorem b64SkipNewlines_not_empty (s : GoString) (h : 40 ∈ s) :
    (b64SkipNewlines s).isEmpty = false := by
  have := mem_b64SkipNewlines s h
  cases hs : b64SkipNewlines s with
  | nil => rw [hs] at this; simp at this
  | cons _ _ => rfl

theorem b64DecodeLoop_paren (s : GoString) :
    ∀ dbuf out, 40 ∈ s → b64DecodeLoop s dbuf out = none := by
  induction s with
  | nil => intro _ _ h; simp at h
  | cons c rest ih =>
    intro dbuf out h
    rw [b64DecodeLoop]
    by_cases hc : c = 40
    · subst hc
      have : b64DecodeChar 40 = none := by decide
      simp [this]
    · have hrest : 40 ∈ rest := by
        rcases List.mem_cons.mp h with e | hr
        · exact absurd e.symm hc
        · exact hr
      cases hd : b64DecodeChar c with
      | some v =>
        simp only
        by_cases h3 : dbuf.length = 3
        · rw [if_pos h3]; exact ih _ _ hrest
        · rw [if_neg h3]; exact ih _ _ hrest
      | none =>
        simp only
        by_cases h1 : c = 10 ∨ c = 13
        · rw [if_pos h1]; exact ih _ _ hrest
        · rw [if_neg h1]
          by_cases h2 : c ≠ 61
          · rw [if_pos h2]
          · rw [if_neg h2]
            have hne := b64SkipNewlines_not_empty rest hrest
            have hskip := mem_b64SkipNewlines rest hrest
            split
            · rfl
            · rfl
            · cases hs : b64SkipNewlines rest with
              | nil => exact absurd (hs ▸ hskip) (by simp)
              | cons c2 r2 =>
                simp only
                by_cases h3 : c2 ≠ 61
                · rw [if_pos h3]
                · rw [if_neg h3]
                  have h2mem : 40 ∈ r2 := by
                    rw [hs] at hskip
                    rcases List.mem_cons.mp hskip with e | hr
                    · simp only [ne_eq, Decidable.not_not] at h3
                      omega
                    · exact hr
                  rw [b64SkipNewlines_not_empty r2 h2mem]
                  rfl
            · rw [hne]
              rfl

theorem digitChar_digit (m : Nat) (h : m < 10) :
    48 ≤ (Nat.digitChar m).toNat ∧ (Nat.digitChar m).toNat ≤ 57 := by
  interval_cases m <;> decide

theorem toDigitsCore_digits (fuel : Nat) :
    ∀ (n : Nat) (acc : List Char), (∀ c ∈ acc, 48 ≤ c.toNat ∧ c.toNat ≤ 57) →
      ∀ c ∈ Nat.toDigitsCore 10 fuel n acc, 48 ≤ c.toNat ∧ c.toNat ≤ 57 := by
  induction fuel with
  | zero => intro n acc hacc c hc; exact hacc c (by simpa [Nat.toDigitsCore] using hc)
  | succ fuel ih =>
    intro n acc hacc c hc
    have hd := digitChar_digit (n % 10) (Nat.mod_lt _ (by norm_num))
    have hacc2 : ∀ c ∈ Nat.digitChar (n % 10) :: acc, 48 ≤ c.toNat ∧ c.toNat ≤ 57 := by
      intro x hx
      rcases List.mem_cons.mp hx with e | hx
      · rw [e]; exact hd
      · exact hacc x hx
    rw [Nat.toDigitsCore] at hc
    split_ifs at hc
    · exact hacc2 c hc
    · exact ih _ _ hacc2 c hc

theorem fmtNat_digits (n : Nat) : ∀ c ∈ fmtNat n, 48 ≤ c ∧ c ≤ 57 := by
  intro c hc
  simp only [fmtNat, Nat.toDigits, List.mem_map] at hc
  obtain ⟨ch, hch, rfl⟩ := hc
  exact toDigitsCore_digits _ _ [] (by simp) ch hch

theorem isHashed_value_cases (v : Any) (h : isHashed v = true) :
    (∃ s, v = .str s) ∨ (∃ p, v = .other p) := by
  cases v with
  | nil => exact absurd h (by decide)
  | str s => exact Or.inl ⟨s, rfl⟩
  | other p => exact Or.inr ⟨p, rfl⟩
  | bool b => cases b <;> exact absurd h (by decide)
  | int n =>
    exfalso
    have hp := paren_of_isHashed _ h
    simp only [Sprint] at hp
    split_ifs at hp
    · rcases List.mem_cons.mp hp with e | hp
      · omega
      · have := fmtNat_digits _ 40 hp
        omega
    · have := fmtNat_digits _ 40 hp
      omega

theorem decryptValue_key_fails (lib : Lib) (v key : GoString) (hv : isHashed (.str v) = true)
    (hkey : key ≠ []) :
    decryptValue lib v key = ([], some (.aesValue (.base64Hash .base64Corrupt))) := by
  have hp : 40 ∈ v := paren_of_isHashed _ hv
  have hk : key.isEmpty = false := by
    cases key with
    | nil => exact absurd rfl hkey
    | cons _ _ => rfl
  have hdec : decryptAES lib v key = ([], some (.base64Hash .base64Corrupt)) := by
    simp [decryptAES, b64DecodeString, b64DecodeLoop_paren v [] [] hp]
  simp [decryptValue, hk, hdec]

theorem key_mode_fails_on_strings (lib : Lib) (v key : GoString) (hkey : key ≠ []) :
    (isHashed (.str v) = true →
      decryptValue lib v key = ([], some (.aesValue (.base64Hash .base64Corrupt)))) ∧
    ∀ (env : EnvData) (which kind : GoString) (d : Any),
      (∀ p, lookupOr env which d ≠ .other p) →
      ∃ e, GetEncryptedValue lib env which kind d key = some (.nil, some e) := by
  refine ⟨fun hv => decryptValue_key_fails lib v key hv hkey, ?_⟩
  intro env which kind d hother
  cases herr : env.EnvError with
  | some e => exact ⟨e, by simp [GetEncryptedValue, herr]⟩
  | none =>
    by_cases hh : isHashed (lookupOr env which d) = true
    · rcases isHashed_value_cases _ hh with ⟨s, hs⟩ | ⟨p, hp⟩
      · rw [hs] at hh
        exact ⟨.decryptFailed (.aesValue (.base64Hash .base64Corrupt)),
          by simp [GetEncryptedValue, herr, hs, hh, decryptValue_key_fails lib s key hh hkey]⟩
      · exact absurd hp (hother p)
    · exact ⟨.notEncrypted (lookupOr env which d), by simp [GetEncryptedValue, herr, hh]⟩

theorem key_mode_never_succeeds (lib : Lib) (env : EnvData) (which kind key : GoString) (d : Any)
    (v : Value) (hkey : key ≠ []) :
    GetEncryptedValue lib env which kind d key ≠ some (v, none) := by
  intro h
  cases herr : env.EnvError with
  | some e => simp [GetEncryptedValue, herr] at h
  | none =>
    by_cases hh : isHashed (lookupOr env which d) = true
    · rcases isHashed_value_cases _ hh with ⟨s, hs⟩ | ⟨p, hp⟩
      · rw [hs] at hh
        simp [GetEncryptedValue, herr, hs, hh, decryptValue_key_fails lib s key hh hkey] at h
      · rw [hp] at hh
        simp [GetEncryptedValue, herr, hp, hh] at h
    · simp [GetEncryptedValue, herr, hh] at h

/-- C19: the code at the failing input.  A default that is not a string but
    prints as `enc(x)` (an error value, a `fmt.Stringer`) passes `isHashed`,
    and the assertion `value.(string)` then faults instead of returning an
    error; the string `enc(x)` itself gives the error of the key mode. -/
theorem GetEncryptedValue_faults_on_non_string :
    isHashed (.other (bytes "enc(x)")) = true ∧
    GetEncryptedValue exampleLib (storeOf []) (bytes "MISSING") []
        (.other (bytes "enc(x)")) (bytes "0123456789abcdef") = none ∧
    GetEncryptedValue exampleLib (storeOf []) (bytes "MISSING") []
        (.str (bytes "enc(x)")) (bytes "0123456789abcdef")
      = some (.nil, some (.decryptFailed (.aesValue (.base64Hash .base64Corrupt)))) := by
  decide

/-! ## List and tuple results -/

end EnvParser
